import Mathlib

/-!
# Slays and brands (`obj-slays.c`)

A shallow embedding of the slay/brand engine of `src/src/obj-slays.c`:
the duplicate remover `dedup_slays` over the static slay table, the matchers
`list_slays`, `slay_info_collect` and `random_slay`, the attack resolver
`improve_attack_modifier` together with the two learning routines
`object_notice_brands` and `object_notice_slays` it calls, `react_to_slay`,
and the slay cache (`create_slay_cache`, `check_slay_cache`,
`fill_slay_cache`).

Linked chains (`struct brand *`, `struct new_slay *`) are lists; a pointer into
a chain is the position of the node it points to.  A caller's array is the map
from position to content.  Mutable C state is passed explicitly.
-/

namespace ObjSlays

/-! ## Flag sets -/

/-- Modelled from the spec: the fixed-width bit-vector `bitflag[]` of
FlagSetOps (the flag library is not part of `obj-slays.c`).  Flag ids start at
1; bit `k - 1` of the number stands for flag `k`.  Id 0 is the terminator
`FLAG_END`, which names no bit. -/
abbrev bitflag := Nat

/-- Modelled from the spec: `has(set, flag)` of FlagSetOps (`of_has`, `rf_has`).
The terminator id 0 is never contained. -/
def flag_has (flags : bitflag) (flag : Nat) : Bool :=
  flag != 0 && flags.testBit (flag - 1)

/-- Modelled from the spec: `set_off(set, flag)` of FlagSetOps (`of_off`): the
bit of `flag` is cleared when it is set, and the set is left alone otherwise. -/
def flag_off (flags : bitflag) (flag : Nat) : bitflag :=
  if flag_has flags flag then flags ^^^ 2 ^ (flag - 1) else flags

/-- Modelled from the spec: `set_on(set, flag)` of FlagSetOps (`rf_on`): the bit
of `flag` is set; the terminator id 0 names no bit. -/
def flag_on (flags : bitflag) (flag : Nat) : bitflag :=
  if flag = 0 then flags else flags ||| 2 ^ (flag - 1)

/-! ## The slay table and `dedup_slays` -/

/-- One row of `slay_table` (`struct slay`), with the fields `obj-slays.c`
reads. -/
structure slay where
  index : Nat
  object_flag : Nat
  monster_flag : Nat
  resist_flag : Nat
  mult : Int
  desc : String
  brand : String
deriving DecidableEq

/-- The test of the inner `if` of `dedup_slays` (lines 114-117): `t_ptr` is
present in `flags`, agrees with `s_ptr` on monster flag and resist flag, and
has another multiplier. -/
def dedup_cond (flags : bitflag) (s t : slay) : Bool :=
  flag_has flags t.object_flag &&
    (t.monster_flag == s.monster_flag) &&
    (t.resist_flag == s.resist_flag) &&
    (t.mult != s.mult)

/-- The inner loop of `dedup_slays` (lines 112-124) for a fixed `s_ptr`: `ts`
are the table rows `j = i + 1 .. SL_MAX - 1`; the state is `(flags, count)`. -/
def dedup_inner (s : slay) : List slay → bitflag × Int → bitflag × Int
  | [], st => st
  | t :: ts, st =>
    if dedup_cond st.1 s t then
      dedup_inner s ts
        (if t.mult > s.mult then flag_off st.1 s.object_flag
          else flag_off st.1 t.object_flag,
         st.2 + 1)
    else dedup_inner s ts st

/-- The outer loop of `dedup_slays` (lines 109-126) over the table rows
`i .. SL_MAX - 1`. -/
def dedup_outer : List slay → bitflag × Int → bitflag × Int
  | [], st => st
  | s :: rest, st =>
    if flag_has st.1 s.object_flag then dedup_outer rest (dedup_inner s rest st)
    else dedup_outer rest st

/-- The function `dedup_slays(flags)` over the table `slay_table`
(`SL_MAX` is its length): the flag set left in `flags` and the returned
`count`. -/
def dedup_slays (slay_table : List slay) (flags : bitflag) : bitflag × Int :=
  dedup_outer slay_table (flags, 0)

/-! ## Brands, slays, monsters and objects -/

/-- One row of `brand_info[]` (`struct brand_info`). -/
structure brand_info_entry where
  active_verb : String
  melee_verb : String
  melee_verb_weak : String
  resist_flag : Nat
deriving DecidableEq

/-- A node of an object's brand chain (`struct brand`); `element` indexes the
five rows of `brand_info[]`. -/
structure brand where
  name : String
  element : Fin 5
  multiplier : Int
  known : Bool
deriving DecidableEq

/-- A node of an object's slay chain (`struct new_slay`). -/
structure new_slay where
  name : String
  race_flag : Nat
  multiplier : Int
  known : Bool
deriving DecidableEq

/-- A monster base (`monster_base`), of which only the name is read. -/
structure monster_base where
  name : String
deriving DecidableEq

/-- A monster race (`monster_race`) with the fields `obj-slays.c` reads. -/
structure monster_race where
  name : String
  base : monster_base
  flags : bitflag
deriving DecidableEq

/-- A monster (`monster_type`): its race and whether it is currently visible
(`ml`). -/
structure monster_type where
  race : monster_race
  ml : Bool
deriving DecidableEq

/-- An object (`object_type`) with its two chains, head first. -/
structure object_type where
  brands : List brand
  slays : List new_slay
deriving DecidableEq

/-- What `obj-slays.c` takes from other files: the resist flag ids named in
`brand_info[]`, the monster-base lookup and the object describer. -/
structure Env where
  RF_IM_ACID : Nat
  RF_IM_ELEC : Nat
  RF_IM_FIRE : Nat
  RF_IM_COLD : Nat
  RF_IM_POIS : Nat
  lookup_monster_base : String → monster_base
  object_desc : object_type → String

/-- The table `brand_info[]` (lines 54-60). -/
def brand_info (env : Env) : Fin 5 → brand_info_entry
  | 0 => ⟨"spits", "dissolve", "corrode", env.RF_IM_ACID⟩
  | 1 => ⟨"crackles", "shock", "zap", env.RF_IM_ELEC⟩
  | 2 => ⟨"flares", "burn", "singe", env.RF_IM_FIRE⟩
  | 3 => ⟨"grows cold", "freeze", "chill", env.RF_IM_COLD⟩
  | 4 => ⟨"seethes", "poison", "sicken", env.RF_IM_POIS⟩

/-- Modelled from the spec: the bounded copy into the 20-character verb buffer
(`my_strcpy` is declared outside `obj-slays.c`): the text is kept up to the
buffer size less the terminator. -/
def my_strcpy (src : String) (bufsize : Nat) : String :=
  String.mk (src.data.take (bufsize - 1))

/-- A call into the identify/notify collaborators. -/
inductive Event where
  | notice_ego : Event
  | msg : String → Event
  | check_for_ident : Event
deriving DecidableEq

/-! ## Learning brands and slays -/

/-- The test "Not applicable" of `object_notice_brands` (lines 253-255). -/
def brand_resisted (env : Env) (m_ptr : monster_type) (b : brand) : Bool :=
  flag_has m_ptr.race.flags (brand_info env b.element).resist_flag

/-- The test "Not applicable" of `object_notice_slays` (lines 283-284). -/
def slay_skipped (env : Env) (m_ptr : monster_type) (s : new_slay) : Bool :=
  ((env.lookup_monster_base s.name).name == m_ptr.race.name) &&
    !flag_has m_ptr.race.flags s.race_flag

/-- One pass of the loop body of `object_notice_brands` (lines 249-261) at
chain position `i`; the state is the object and the collaborator calls made
so far. -/
def notice_brand_at (env : Env) (m_ptr : Option monster_type)
    (w : object_type × List Event) (i : Nat) : object_type × List Event :=
  match w.1.brands[i]? with
  | none => w
  | some b =>
    if b.known then w
    else if (match m_ptr with
        | some m => brand_resisted env m b
        | none => false) then w
    else
      let o : object_type :=
        { w.1 with brands := w.1.brands.set i { b with known := true } }
      (o, w.2 ++ [Event.notice_ego,
        Event.msg ("Your " ++ env.object_desc o ++ " " ++
          (brand_info env b.element).active_verb ++ "!")])

/-- The function `object_notice_brands(o_ptr, m_ptr)` (lines 243-265). -/
def object_notice_brands (env : Env) (m_ptr : Option monster_type)
    (w : object_type × List Event) : object_type × List Event :=
  let w1 := (List.range w.1.brands.length).foldl (notice_brand_at env m_ptr) w
  (w1.1, w1.2 ++ [Event.check_for_ident])

/-- One pass of the loop body of `object_notice_slays` (lines 279-291) at chain
position `i`. -/
def notice_slay_at (env : Env) (m_ptr : monster_type)
    (w : object_type × List Event) (i : Nat) : object_type × List Event :=
  match w.1.slays[i]? with
  | none => w
  | some s =>
    if s.known then w
    else if slay_skipped env m_ptr s then w
    else
      let o : object_type :=
        { w.1 with slays := w.1.slays.set i { s with known := true } }
      (o, w.2 ++ [Event.notice_ego,
        Event.msg ("Your " ++ env.object_desc o ++ " glows" ++
          (if s.multiplier > 3 then " brightly" else "") ++ "!")])

/-- The function `object_notice_slays(o_ptr, m_ptr)` (lines 273-295). -/
def object_notice_slays (env : Env) (m_ptr : monster_type)
    (w : object_type × List Event) : object_type × List Event :=
  let w1 := (List.range w.1.slays.length).foldl (notice_slay_at env m_ptr) w
  (w1.1, w1.2 ++ [Event.check_for_ident])

/-! ## `improve_attack_modifier` -/

/-- The state `improve_attack_modifier` works on: the object, the lore flags
`l_ptr->flags` of the monster's race, the caller's `*brand_used`, `*slay_used`
and `*verb`, the local `best_mult`, and the collaborator calls made. -/
structure attack_state where
  o_ptr : object_type
  lore_flags : bitflag
  brand_used : Option Nat
  slay_used : Option Nat
  verb : String
  best_mult : Int
  log : List Event
deriving DecidableEq

/-- The verb a winning brand writes (lines 330-334). -/
def brand_verb (env : Env) (b : brand) : String :=
  if b.multiplier < 3 then my_strcpy (brand_info env b.element).melee_verb_weak 20
  else my_strcpy (brand_info env b.element).melee_verb 20

/-- The verb a winning slay writes (lines 359-362). -/
def slay_verb (s : new_slay) : String :=
  if s.multiplier ≤ 3 then my_strcpy "smite" 20 else my_strcpy "fiercely smite" 20

/-- Lines 327-335: a better brand becomes the recorded winner. -/
def record_brand (env : Env) (b : brand) (i : Nat) (st : attack_state) : attack_state :=
  if st.best_mult < b.multiplier then
    { st with best_mult := b.multiplier, brand_used := some i, verb := brand_verb env b }
  else st

/-- Lines 336-340: on a real attack the object's brands are noticed and, when
the monster is visible, the resist flag is entered in the lore. -/
def learn_brand (env : Env) (m_ptr : monster_type) (real : Bool) (b : brand)
    (st : attack_state) : attack_state :=
  if real then
    let w := object_notice_brands env (some m_ptr) (st.o_ptr, st.log)
    let st1 : attack_state := { st with o_ptr := w.1, log := w.2 }
    if m_ptr.ml then
      { st1 with lore_flags := flag_on st1.lore_flags (brand_info env b.element).resist_flag }
    else st1
  else st

/-- Lines 343-345: a known brand on a real attack against a visible monster
enters the resist flag in the lore; `b->known` is read as it is now. -/
def reinforce_brand (env : Env) (m_ptr : monster_type) (real : Bool) (i : Nat)
    (st : attack_state) : attack_state :=
  match st.o_ptr.brands[i]? with
  | none => st
  | some b =>
    if b.known && m_ptr.ml && real then
      { st with lore_flags := flag_on st.lore_flags (brand_info env b.element).resist_flag }
    else st

/-- The body of the brand loop (lines 322-345) at chain position `i`. -/
def brand_step (env : Env) (m_ptr : monster_type) (real known_only : Bool)
    (st : attack_state) (i : Nat) : attack_state :=
  match st.o_ptr.brands[i]? with
  | none => st
  | some b =>
    if known_only && !b.known then st
    else
      reinforce_brand env m_ptr real i
        (if !brand_resisted env m_ptr b then
          learn_brand env m_ptr real b (record_brand env b i st)
        else st)

/-- The applicability test of the slay loop (lines 353-354). -/
def slay_applies (env : Env) (m_ptr : monster_type) (s : new_slay) : Bool :=
  !((env.lookup_monster_base s.name).name == m_ptr.race.name) ||
    flag_has m_ptr.race.flags s.race_flag

/-- Lines 355-363: a better slay becomes the recorded winner and the brand
slot is emptied. -/
def record_slay (s : new_slay) (j : Nat) (st : attack_state) : attack_state :=
  if st.best_mult < s.multiplier then
    { st with best_mult := s.multiplier, brand_used := none, slay_used := some j,
              verb := slay_verb s }
  else st

/-- Lines 364-368: on a real attack the object's slays are noticed and, when the
monster is visible, the race flag is entered in the lore. -/
def learn_slay (env : Env) (m_ptr : monster_type) (real : Bool) (s : new_slay)
    (st : attack_state) : attack_state :=
  if real then
    let w := object_notice_slays env m_ptr (st.o_ptr, st.log)
    let st1 : attack_state := { st with o_ptr := w.1, log := w.2 }
    if m_ptr.ml then { st1 with lore_flags := flag_on st1.lore_flags s.race_flag }
    else st1
  else st

/-- Lines 371-373: a known slay on a real attack against a visible monster
enters the race flag in the lore; `s->known` is read as it is now. -/
def reinforce_slay (m_ptr : monster_type) (real : Bool) (j : Nat)
    (st : attack_state) : attack_state :=
  match st.o_ptr.slays[j]? with
  | none => st
  | some s =>
    if s.known && m_ptr.ml && real then
      { st with lore_flags := flag_on st.lore_flags s.race_flag }
    else st

/-- The body of the slay loop (lines 350-373) at chain position `j`. -/
def slay_step (env : Env) (m_ptr : monster_type) (real known_only : Bool)
    (st : attack_state) (j : Nat) : attack_state :=
  match st.o_ptr.slays[j]? with
  | none => st
  | some s =>
    if known_only && !s.known then st
    else
      reinforce_slay m_ptr real j
        (if slay_applies env m_ptr s then
          learn_slay env m_ptr real s (record_slay s j st)
        else st)

/-- The brand loop (lines 321-346): every position of the brand chain, head
first. -/
def brand_loop (env : Env) (m_ptr : monster_type) (real known_only : Bool)
    (st : attack_state) : attack_state :=
  (List.range st.o_ptr.brands.length).foldl (brand_step env m_ptr real known_only) st

/-- The slay loop (lines 349-374): every position of the slay chain, head
first. -/
def slay_loop (env : Env) (m_ptr : monster_type) (real known_only : Bool)
    (st : attack_state) : attack_state :=
  (List.range st.o_ptr.slays.length).foldl (slay_step env m_ptr real known_only) st

/-- The function `improve_attack_modifier` (lines 310-375).  `l_flags` are the
lore flags of the monster's race on entry; `brand_used`, `slay_used` and `verb`
are what the caller's three out-parameters hold on entry. -/
def improve_attack_modifier (env : Env) (o_ptr : object_type) (m_ptr : monster_type)
    (l_flags : bitflag) (brand_used slay_used : Option Nat) (verb : String)
    (real known_only : Bool) : attack_state :=
  slay_loop env m_ptr real known_only
    (brand_loop env m_ptr real known_only
      { o_ptr := o_ptr, lore_flags := l_flags, brand_used := brand_used,
        slay_used := slay_used, verb := verb, best_mult := 1, log := [] })

/-! ## Whole-set flag operations -/

/-- Modelled from the spec: `intersect(a, b)` of FlagSetOps (`of_inter`), the
bits set in both. -/
def flag_inter (a b : bitflag) : bitflag := a &&& b

/-- Modelled from the spec: `is_empty(a)` of FlagSetOps (`of_is_empty`). -/
def flag_is_empty (a : bitflag) : Bool := a == 0

/-- Modelled from the spec: `is_equal(a, b)` of FlagSetOps (`of_is_equal`),
bit-for-bit equality. -/
def flag_is_equal (a b : bitflag) : Bool := a == b

/-! ## `list_slays` and `slay_info_collect` -/

/-- What a call of `list_slays` leaves: the caller's `flags`, the caller's
array `slays[]` (absent when the pointer is null) and the returned `count`.
An array is the map from position to content. -/
structure list_slays_result where
  flags : bitflag
  slays : Option (Nat → Nat)
  count : Nat

/-- The loop "Collect slays" of `list_slays` (lines 190-198) over the table rows
from index `i` on; the state is `(slays, count)`. -/
def list_slays_collect (f : bitflag) :
    List slay → Nat → Option (Nat → Nat) × Nat → Option (Nat → Nat) × Nat
  | [], _, st => st
  | s :: rest, i, st =>
    if flag_has f s.object_flag then
      list_slays_collect f rest (i + 1)
        (st.1.map (fun a => Function.update a st.2 i), st.2 + 1)
    else list_slays_collect f rest (i + 1) st

/-- The flag set `f` that `list_slays` collects from (lines 183-187): the copy
of `flags` cut down to `mask`, with duplicates removed when asked. -/
def list_slays_f (slay_table : List slay) (flags mask : bitflag) (dedup : Bool) : bitflag :=
  if dedup then (dedup_slays slay_table (flag_inter flags mask)).1
  else flag_inter flags mask

/-- The function `list_slays(flags, mask, slays, dedup)` (lines 176-201).  Only
the local copy `f` is written; `flags` is handed back as it came. -/
def list_slays (slay_table : List slay) (flags mask : bitflag)
    (slays : Option (Nat → Nat)) (dedup : Bool) : list_slays_result :=
  let r := list_slays_collect (list_slays_f slay_table flags mask dedup) slay_table 0 (slays, 0)
  { flags := flags, slays := r.1, count := r.2 }

/-- The table indices whose object flag is set in `g`, in table order: what the
specification asks `enumerate` to return. -/
def present_ids (slay_table : List slay) (g : bitflag) : List Nat :=
  (List.range slay_table.length).filter
    (fun i => match slay_table[i]? with
      | some s => flag_has g s.object_flag
      | none => false)

/-- The three output arrays of `slay_info_collect` (each absent when its
pointer is null) and the running `count`. -/
structure slay_info where
  desc : Option (Nat → String)
  brand : Option (Nat → String)
  mult : Option (Nat → Int)
  count : Nat

/-- The loop of `slay_info_collect` (lines 219-231) over the ids
`slays[i], slays[i+1], ...` still to be read.  A read outside `slay_table`
gives `none`. -/
def slay_info_loop (slay_table : List slay) : List Nat → slay_info → Option slay_info
  | [], st => some st
  | id :: ids, st =>
    if id != 0 then
      match slay_table[id]? with
      | none => none
      | some s =>
        slay_info_loop slay_table ids
          { mult := st.mult.map (fun a => Function.update a st.count s.mult),
            brand := st.brand.map (fun a => Function.update a st.count s.brand),
            desc := st.desc.map (fun a => Function.update a st.count s.desc),
            count := st.count + 1 }
    else slay_info_loop slay_table ids st

/-- The function `slay_info_collect(slays, desc, brand, mult, max_n)` (lines
214-234); `slays` is the caller's id array. -/
def slay_info_collect (slay_table : List slay) (slays : Nat → Nat)
    (desc brand : Option (Nat → String)) (mult : Option (Nat → Int)) (max_n : Nat) :
    Option slay_info :=
  slay_info_loop slay_table ((List.range max_n).map slays)
    { desc := desc, brand := brand, mult := mult, count := 0 }

/-- The first `n` entries of an array. -/
def written {α : Type} (a : Nat → α) (n : Nat) : List α := (List.range n).map a

/-- The array `a` after the values `vs` were stored at the positions
`c, c + 1, ...`. -/
def write_from {α : Type} (a : Nat → α) (c : Nat) (vs : List α) : Nat → α :=
  fun k => if c ≤ k then vs.getD (k - c) (a k) else a k

/-- The table rows named by the non-zero ids of a list, in the order of the
list. -/
def rows_named (slay_table : List slay) (ids : List Nat) : List slay :=
  (ids.filter (fun id => id != 0)).filterMap (fun id => slay_table[id]?)

/-! ## `random_slay` -/

/-- How a run of `random_slay` stands after a number of draws: it has returned
`&slay_table[i]`, or it is still in its loop, or it read outside the table. -/
inductive pick where
  | returned : Nat → slay → pick
  | looping : pick
  | stray : pick
deriving DecidableEq

/-- The loop of `random_slay(mask)` (lines 141-143) run for at most `n` more
draws; `rng k` is the result of the call number `k` of
`randint1(SL_MAX - 1)`. -/
def random_slay (slay_table : List slay) (mask : bitflag) (rng : Nat → Nat) :
    Nat → Nat → pick
  | 0, _ => pick.looping
  | n + 1, k =>
    match slay_table[rng k]? with
    | none => pick.stray
    | some s =>
      if !flag_has mask s.object_flag then random_slay slay_table mask rng n (k + 1)
      else pick.returned (rng k) s

/-! ## `react_to_slay` -/

/-- The loop of `react_to_slay` (lines 388-398) from a node of the slay chain
on. -/
def react_to_slay_from (mon : monster_type) : List new_slay → Bool
  | [] => false
  | s :: rest =>
    if flag_has mon.race.flags s.race_flag then true
    else if !(s.name == mon.race.base.name) then true
    else react_to_slay_from mon rest

/-- The function `react_to_slay(obj, mon)` (lines 384-399). -/
def react_to_slay (obj : object_type) (mon : monster_type) : Bool :=
  react_to_slay_from mon obj.slays

/-! ## The slay cache -/

/-- An entry of `slay_cache` (`struct flag_cache`). -/
structure flag_cache where
  flags : bitflag
  value : Int
deriving DecidableEq

/-- An ego-item template (`struct ego_item`), of which only the flags are
read. -/
structure ego_item where
  flags : bitflag
deriving DecidableEq

/-- The function `check_slay_cache(index)` (lines 407-415) scanning the array
`slay_cache` from an entry on; `none` is a read past the end of the array. -/
def check_slay_cache (index : bitflag) : List flag_cache → Option Int
  | [] => none
  | e :: rest =>
    if !flag_is_empty e.flags then
      if flag_is_equal index e.flags then some e.value
      else check_slay_cache index rest
    else some e.value

/-- The function `fill_slay_cache(index, value)` (lines 424-436) scanning the
array `slay_cache` from an entry on: the returned flag and the array after the
call; `none` is a read past the end of the array. -/
def fill_slay_cache (index : bitflag) (value : Int) :
    List flag_cache → Option (Bool × List flag_cache)
  | [] => none
  | e :: rest =>
    if !flag_is_empty e.flags then
      if flag_is_equal index e.flags then some (true, { e with value := value } :: rest)
      else (fill_slay_cache index value rest).map (fun r => (r.1, e :: r.2))
    else some (false, e :: rest)

/-- The inner loop of `create_slay_cache` (lines 473-474) for the template at
position `i`: its `continue` belongs to this loop, so a match with an earlier
combination only moves on to the next `j` and `count` is left as it is. -/
def skip_scanned (cacheme : bitflag) (dupcheck : List bitflag) (i count : Nat) : Nat :=
  (List.range i).foldl
    (fun c j => if flag_is_equal cacheme (dupcheck.getD j 0) then c else c) count

/-- The first loop of `create_slay_cache` (lines 462-480) over the templates
still to be scanned; the state is `(count, dupcheck)`, where `dupcheck` holds
the entries allocated so far. -/
def scan_egos (slay_mask : bitflag) : List ego_item → Nat × List bitflag → Nat × List bitflag
  | [], st => st
  | e :: rest, st =>
    let cacheme := flag_inter e.flags slay_mask
    if !flag_is_empty cacheme then
      scan_egos slay_mask rest
        (skip_scanned cacheme st.2 st.2.length st.1 + 1, st.2 ++ [cacheme])
    else scan_egos slay_mask rest (st.1, st.2 ++ [0])

/-- The loop "Populate the slay_cache" (lines 487-494); the state is
`(slay_cache, count)`. -/
def populate_cache : List bitflag → List flag_cache × Nat → List flag_cache × Nat
  | [], st => st
  | d :: rest, st =>
    if !flag_is_empty d then
      populate_cache rest (st.1.set st.2 ⟨d, 0⟩, st.2 + 1)
    else populate_cache rest st

/-- The function `create_slay_cache(items)` (lines 446-502): the array
`slay_cache` it leaves.  `slay_mask` is what `create_mask` builds and the
length of `items` is `z_info->e_max`; the array is allocated zeroed with
`count + 1` entries. -/
def create_slay_cache (slay_mask : bitflag) (items : List ego_item) : List flag_cache :=
  let st := scan_egos slay_mask items (0, [])
  (populate_cache st.2 (List.replicate (st.1 + 1) ⟨0, 0⟩, 0)).1

/-- The cache states that `create_slay_cache` followed by any sequence of
`fill_slay_cache` calls can reach. -/
inductive cache_reached (slay_mask : bitflag) (items : List ego_item) :
    List flag_cache → Prop where
  | created : cache_reached slay_mask items (create_slay_cache slay_mask items)
  | filled (cache cache1 : List flag_cache) (index : bitflag) (value : Int) (ok : Bool) :
      cache_reached slay_mask items cache →
      fill_slay_cache index value cache = some (ok, cache1) →
      cache_reached slay_mask items cache1

/-! ## Counting duplicates -/

/-- A `(monster_flag, resist_flag)` pair. -/
structure slay_key where
  monster_flag : Nat
  resist_flag : Nat
deriving DecidableEq

/-- The `(monster_flag, resist_flag)` pair of a table row. -/
def slay_pair (s : slay) : slay_key := ⟨s.monster_flag, s.resist_flag⟩

/-- The table rows whose object flag is set in `flags`, in table order. -/
def present_slays (slay_table : List slay) (flags : bitflag) : List slay :=
  slay_table.filter (fun s => flag_has flags s.object_flag)

/-- The number of table rows whose bit is set in `before` and clear in
`after`. -/
def cleared_count (slay_table : List slay) (before after : bitflag) : Nat :=
  (slay_table.filter
    (fun s => flag_has before s.object_flag && !flag_has after s.object_flag)).length

/-- The sum, over the pairs that occur `k > 1` times among the rows present in
`flags`, of `k - 1`. -/
def duplicate_excess (slay_table : List slay) (flags : bitflag) : Nat :=
  let ps := (present_slays slay_table flags).map slay_pair
  ((ps.dedup.filter (fun p => 1 < ps.count p)).map (fun p => ps.count p - 1)).sum

/-! ## The static part of a chain -/

/-- The part of a brand node that learning never writes. -/
def brand_static (b : brand) : String × Fin 5 × Int := (b.name, b.element, b.multiplier)

/-- The part of a slay node that learning never writes. -/
def slay_static (s : new_slay) : String × Nat × Int := (s.name, s.race_flag, s.multiplier)

/-- Two objects that differ at most in the known flags of their chains. -/
def same_static (o o' : object_type) : Prop :=
  o'.brands.map brand_static = o.brands.map brand_static ∧
  o'.slays.map slay_static = o.slays.map slay_static

/-! ## Concrete data for the examples -/

/-- A sample environment: resist flags 1 to 5, every name is a base name, and
every object is described as a sword. -/
def env0 : Env :=
  { RF_IM_ACID := 1, RF_IM_ELEC := 2, RF_IM_FIRE := 3, RF_IM_COLD := 4, RF_IM_POIS := 5,
    lookup_monster_base := fun n => ⟨n⟩,
    object_desc := fun _ => "sword" }

/-- A table with the null row and two orc slays of multipliers 2 and 5. -/
def orc_table : List slay :=
  [⟨0, 0, 0, 0, 0, "", ""⟩, ⟨1, 1, 7, 0, 2, "orcs", ""⟩, ⟨2, 2, 7, 0, 5, "orcs", ""⟩]

/-- A table with the null row and three slays of one pair, of multipliers 1, 2
and 3, each with an object flag of its own. -/
def triple_table : List slay :=
  [⟨0, 0, 0, 0, 0, "", ""⟩, ⟨1, 1, 7, 0, 1, "", ""⟩, ⟨2, 2, 7, 0, 2, "", ""⟩,
   ⟨3, 3, 7, 0, 3, "", ""⟩]

/-- A plain orc: no race flags, visible. -/
def orc : monster_type := ⟨⟨"orc", ⟨"orc"⟩, 0⟩, true⟩

/-- A fire brand of multiplier 2 and a slay of multiplier 4 under another
base name, both known. -/
def flame_tongue : object_type :=
  ⟨[⟨"fire", 2, 2, true⟩], [⟨"dragon", 9, 4, true⟩]⟩

/-- An orc that is not currently visible. -/
def hidden_orc : monster_type := ⟨⟨"orc", ⟨"orc"⟩, 0⟩, false⟩

/-- An orc immune to fire (`RF_IM_FIRE` is flag 3 of the sample environment). -/
def fire_orc : monster_type := ⟨⟨"orc", ⟨"orc"⟩, 4⟩, true⟩

/-- A single fire brand of multiplier 3. -/
def fire_blade : object_type := ⟨[⟨"fire", 2, 3, true⟩], []⟩

/-- A known fire brand of multiplier 2 followed by an unknown cold brand of
multiplier 3. -/
def twin_brands : object_type :=
  ⟨[⟨"fire", 2, 2, true⟩, ⟨"cold", 3, 3, false⟩], []⟩

/-- A table with the null row and two slays of one pair with the same
multiplier. -/
def tie_table : List slay :=
  [⟨0, 0, 0, 0, 0, "", ""⟩, ⟨1, 1, 7, 0, 3, "orcs", ""⟩, ⟨2, 2, 7, 0, 3, "orcs", ""⟩]

/-- Two ego templates carrying the same slay flag. -/
def twin_egos : List ego_item := [⟨1⟩, ⟨1⟩]

/-- Three ego templates: two slay combinations and one template without
slays. -/
def three_egos : List ego_item := [⟨1⟩, ⟨4⟩, ⟨2⟩]

/-- An id array holding 2, 0, 1 and zeros after that. -/
def sample_ids : Nat → Nat := fun i => [2, 0, 1].getD i 0

/-- A text array holding empty texts. -/
def blank_texts : Nat → String := fun _ => ""

/-- A number array holding zeros. -/
def zero_mults : Nat → Int := fun _ => 0

/-! ## Flag-set lemmas -/

theorem flag_has_off (f : bitflag) (a k : Nat) :
    flag_has (flag_off f a) k = (flag_has f k && (k != a)) := by
  unfold flag_off
  by_cases h : flag_has f a = true
  · rw [if_pos h]
    unfold flag_has at h ⊢
    simp only [Bool.and_eq_true, bne_iff_ne, ne_eq] at h
    obtain ⟨ha, hb⟩ := h
    by_cases hk : k = 0
    · subst hk; simp
    · by_cases hka : k = a
      · subst hka
        simp [Nat.testBit_xor, Nat.testBit_two_pow, hb]
      · have : a - 1 ≠ k - 1 := by omega
        simp [Nat.testBit_xor, Nat.testBit_two_pow, this, hka, hk]
  · rw [if_neg h]
    by_cases hka : k = a
    · subst hka
      simp at h
      simp [h]
    · simp [hka]

theorem flag_has_off_iff (f : bitflag) (a k : Nat) :
    flag_has (flag_off f a) k = true ↔ flag_has f k = true ∧ k ≠ a := by
  rw [flag_has_off]; simp

theorem flag_has_zero (f : bitflag) : flag_has f 0 = false := by
  simp [flag_has]

theorem flag_ne_zero_of_has {f : bitflag} {k : Nat} (h : flag_has f k = true) : k ≠ 0 := by
  rintro rfl
  rw [flag_has_zero] at h
  exact Bool.false_ne_true h

theorem bitflag_ext {f g : bitflag} (h : ∀ k, flag_has f k = flag_has g k) : f = g := by
  apply Nat.eq_of_testBit_eq
  intro i
  have := h (i + 1)
  simpa [flag_has] using this

/-! ## `dedup_slays`: what the loops do to the flag set -/

theorem dedup_cond_iff (f : bitflag) (s t : slay) :
    dedup_cond f s t = true ↔
      flag_has f t.object_flag = true ∧ t.monster_flag = s.monster_flag ∧
        t.resist_flag = s.resist_flag ∧ t.mult ≠ s.mult := by
  simp [dedup_cond, and_assoc]

theorem dedup_inner_subset (s : slay) (ts : List slay) (st : bitflag × Int) (k : Nat)
    (h : flag_has (dedup_inner s ts st).1 k = true) : flag_has st.1 k = true := by
  induction ts generalizing st with
  | nil => simpa [dedup_inner] using h
  | cons t ts ih =>
    unfold dedup_inner at h
    split at h
    · have h1 := ih _ h
      simp only at h1
      split at h1
      · exact ((flag_has_off_iff _ _ _).1 h1).1
      · exact ((flag_has_off_iff _ _ _).1 h1).1
    · exact ih _ h

theorem dedup_outer_subset (l : List slay) (st : bitflag × Int) (k : Nat)
    (h : flag_has (dedup_outer l st).1 k = true) : flag_has st.1 k = true := by
  induction l generalizing st with
  | nil => simpa [dedup_outer] using h
  | cons s rest ih =>
    unfold dedup_outer at h
    split at h
    · exact dedup_inner_subset s rest st k (ih _ h)
    · exact ih _ h

/-- After the inner loop no row it visited is still in conflict with `s`. -/
theorem dedup_inner_no_conflict (s : slay) (ts : List slay) (st : bitflag × Int) :
    ∀ t ∈ ts, ¬ (flag_has (dedup_inner s ts st).1 s.object_flag = true ∧
      dedup_cond (dedup_inner s ts st).1 s t = true) := by
  induction ts generalizing st with
  | nil => intro t ht; simp at ht
  | cons t0 ts ih =>
    intro t ht
    rcases List.mem_cons.1 ht with rfl | ht
    · rintro ⟨hs, hc⟩
      have hct := ((dedup_cond_iff _ _ _).1 hc).1
      unfold dedup_inner at hs hct
      split at hs
      · rename_i hfire
        rw [if_pos hfire] at hct
        have hs1 := dedup_inner_subset _ _ _ _ hs
        have ht1 := dedup_inner_subset _ _ _ _ hct
        simp only at hs1 ht1
        split at hs1
        · exact ((flag_has_off_iff _ _ _).1 hs1).2 rfl
        · rename_i hgt
          rw [if_neg hgt] at ht1
          exact ((flag_has_off_iff _ _ _).1 ht1).2 rfl
      · rename_i hfire
        rw [if_neg hfire] at hct
        have ht1 := dedup_inner_subset _ _ _ _ hct
        apply hfire
        rw [dedup_cond_iff] at hc ⊢
        exact ⟨ht1, hc.2⟩
    · unfold dedup_inner
      split
      · exact ih _ t ht
      · exact ih _ t ht

/-- After `dedup_slays` no two rows of the table are in conflict. -/
theorem dedup_outer_no_conflict (l : List slay) (st : bitflag × Int) :
    l.Pairwise (fun s t => ¬ (flag_has (dedup_outer l st).1 s.object_flag = true ∧
      dedup_cond (dedup_outer l st).1 s t = true)) := by
  induction l generalizing st with
  | nil => exact List.Pairwise.nil
  | cons s rest ih =>
    rw [List.pairwise_cons]
    unfold dedup_outer
    split
    · refine ⟨?_, ih _⟩
      rintro t ht ⟨hs, hc⟩
      apply dedup_inner_no_conflict s rest st t ht
      refine ⟨dedup_outer_subset _ _ _ hs, ?_⟩
      rw [dedup_cond_iff] at hc ⊢
      exact ⟨dedup_outer_subset _ _ _ hc.1, hc.2⟩
    · rename_i hno
      refine ⟨?_, ih _⟩
      rintro t _ ⟨hs, _⟩
      exact hno (dedup_outer_subset _ _ _ hs)

theorem dedup_inner_fix (s : slay) (ts : List slay) (st : bitflag × Int)
    (h : ∀ t ∈ ts, ¬ dedup_cond st.1 s t = true) : dedup_inner s ts st = st := by
  induction ts with
  | nil => rfl
  | cons t ts ih =>
    unfold dedup_inner
    rw [if_neg (h t (List.mem_cons_self _ _))]
    exact ih (fun t' ht' => h t' (List.mem_cons_of_mem _ ht'))

/-- On a flag set without conflicts `dedup_slays` changes nothing. -/
theorem dedup_outer_fix (l : List slay) (st : bitflag × Int)
    (h : l.Pairwise (fun s t => ¬ (flag_has st.1 s.object_flag = true ∧
      dedup_cond st.1 s t = true))) : dedup_outer l st = st := by
  induction l with
  | nil => rfl
  | cons s rest ih =>
    rw [List.pairwise_cons] at h
    unfold dedup_outer
    split
    · rename_i hs
      rw [dedup_inner_fix s rest st (fun t ht hc => h.1 t ht ⟨hs, hc⟩)]
      exact ih h.2
    · exact ih h.2

/-- Rows of a list with pairwise distinct non-null object flags are determined
by their object flag. -/
theorem eq_of_object_flag_eq {l : List slay}
    (hd : l.Pairwise (fun a b => a.object_flag = b.object_flag → a.object_flag = 0))
    {a b : slay} (ha : a ∈ l) (hb : b ∈ l) (hab : a.object_flag = b.object_flag)
    (h0 : a.object_flag ≠ 0) : a = b := by
  induction l with
  | nil => simp at ha
  | cons x xs ih =>
    rw [List.pairwise_cons] at hd
    rcases List.mem_cons.1 ha with hax | hax
    · rcases List.mem_cons.1 hb with hbx | hbx
      · rw [hax, hbx]
      · subst hax
        exact absurd (hd.1 b hbx hab) h0
    · rcases List.mem_cons.1 hb with hbx | hbx
      · subst hbx
        exact absurd (hd.1 a hax hab.symm) (hab ▸ h0)
      · exact ih hd.2 hax hbx

/-- What the inner loop leaves: a bit survives when it was set, it is not the
bit of `s` with a stronger row present, and it is not the bit of a weaker row
of the same pair. -/
theorem dedup_inner_char (s : slay) (ts : List slay) (st : bitflag × Int)
    (hd : ts.Pairwise (fun a b => a.object_flag = b.object_flag → a.object_flag = 0))
    (k : Nat) :
    flag_has (dedup_inner s ts st).1 k = true ↔
      flag_has st.1 k = true ∧
      ¬ (k = s.object_flag ∧ ∃ t ∈ ts, flag_has st.1 t.object_flag = true ∧
          t.monster_flag = s.monster_flag ∧ t.resist_flag = s.resist_flag ∧ s.mult < t.mult) ∧
      ¬ (∃ t ∈ ts, t.object_flag = k ∧
          t.monster_flag = s.monster_flag ∧ t.resist_flag = s.resist_flag ∧ t.mult < s.mult) := by
  induction ts generalizing st with
  | nil => simp [dedup_inner]
  | cons t ts ih =>
    rw [List.pairwise_cons] at hd
    unfold dedup_inner
    split
    · rename_i hc
      obtain ⟨h1, hp1, hp2, hm⟩ := (dedup_cond_iff _ _ _).1 hc
      rw [ih _ hd.2]
      simp only
      split
      · rename_i hgt
        rw [flag_has_off_iff]
        constructor
        · rintro ⟨⟨hk, hne⟩, _, h3⟩
          refine ⟨hk, fun h => hne h.1, ?_⟩
          rintro ⟨t', ht', hf, hq1, hq2, hlt⟩
          rcases List.mem_cons.1 ht' with rfl | ht'
          · omega
          · exact h3 ⟨t', ht', hf, hq1, hq2, hlt⟩
        · rintro ⟨hk, h2, h3⟩
          have hne : k ≠ s.object_flag := fun e =>
            h2 ⟨e, t, List.mem_cons_self _ _, h1, hp1, hp2, hgt⟩
          refine ⟨⟨hk, hne⟩, fun h => hne h.1, ?_⟩
          rintro ⟨t', ht', hf, hq1, hq2, hlt⟩
          exact h3 ⟨t', List.mem_cons_of_mem _ ht', hf, hq1, hq2, hlt⟩
      · rename_i hgt
        have hlt : t.mult < s.mult := by omega
        rw [flag_has_off_iff]
        constructor
        · rintro ⟨⟨hk, hne⟩, h2, h3⟩
          refine ⟨hk, ?_, ?_⟩
          · rintro ⟨e, t', ht', hf, hq1, hq2, hgt'⟩
            rcases List.mem_cons.1 ht' with rfl | ht'
            · omega
            · refine h2 ⟨e, t', ht', ?_, hq1, hq2, hgt'⟩
              rw [flag_has_off_iff]
              refine ⟨hf, fun e' => ?_⟩
              exact flag_ne_zero_of_has h1 (hd.1 t' ht' e'.symm)
          · rintro ⟨t', ht', hf, hq1, hq2, hlt'⟩
            rcases List.mem_cons.1 ht' with rfl | ht'
            · exact hne hf.symm
            · exact h3 ⟨t', ht', hf, hq1, hq2, hlt'⟩
        · rintro ⟨hk, h2, h3⟩
          have hne : k ≠ t.object_flag := fun e =>
            h3 ⟨t, List.mem_cons_self _ _, e.symm, hp1, hp2, hlt⟩
          refine ⟨⟨hk, hne⟩, ?_, ?_⟩
          · rintro ⟨e, t', ht', hf, hq1, hq2, hgt'⟩
            rw [flag_has_off_iff] at hf
            exact h2 ⟨e, t', List.mem_cons_of_mem _ ht', hf.1, hq1, hq2, hgt'⟩
          · rintro ⟨t', ht', hf, hq1, hq2, hlt'⟩
            exact h3 ⟨t', List.mem_cons_of_mem _ ht', hf, hq1, hq2, hlt'⟩
    · rename_i hc
      rw [dedup_cond_iff] at hc
      rw [ih _ hd.2]
      constructor
      · rintro ⟨hk, h2, h3⟩
        refine ⟨hk, ?_, ?_⟩
        · rintro ⟨e, t', ht', hf, hq1, hq2, hgt'⟩
          rcases List.mem_cons.1 ht' with rfl | ht'
          · exact hc ⟨hf, hq1, hq2, by omega⟩
          · exact h2 ⟨e, t', ht', hf, hq1, hq2, hgt'⟩
        · rintro ⟨t', ht', hf, hq1, hq2, hlt'⟩
          rcases List.mem_cons.1 ht' with rfl | ht'
          · exact hc ⟨hf ▸ hk, hq1, hq2, by omega⟩
          · exact h3 ⟨t', ht', hf, hq1, hq2, hlt'⟩
      · rintro ⟨hk, h2, h3⟩
        refine ⟨hk, ?_, ?_⟩
        · rintro ⟨e, t', ht', hf, hq1, hq2, hgt'⟩
          exact h2 ⟨e, t', List.mem_cons_of_mem _ ht', hf, hq1, hq2, hgt'⟩
        · rintro ⟨t', ht', hf, hq1, hq2, hlt'⟩
          exact h3 ⟨t', List.mem_cons_of_mem _ ht', hf, hq1, hq2, hlt'⟩

/-- What the whole double loop leaves: a bit survives when it was set and it is
not the bit of a row that a present row of the same pair beats. -/
theorem dedup_outer_char (l : List slay) (st : bitflag × Int)
    (hd : l.Pairwise (fun a b => a.object_flag = b.object_flag → a.object_flag = 0))
    (k : Nat) :
    flag_has (dedup_outer l st).1 k = true ↔
      flag_has st.1 k = true ∧
      ¬ (∃ s ∈ l, s.object_flag = k ∧ ∃ t ∈ l, flag_has st.1 t.object_flag = true ∧
          t.monster_flag = s.monster_flag ∧ t.resist_flag = s.resist_flag ∧ s.mult < t.mult) := by
  induction l generalizing st with
  | nil => simp [dedup_outer]
  | cons s rest ih =>
    have hd' := hd
    rw [List.pairwise_cons] at hd'
    unfold dedup_outer
    split
    · rename_i hs
      rw [ih _ hd'.2, dedup_inner_char s rest st hd'.2]
      constructor
      · rintro ⟨⟨hk, h2, h3⟩, h4⟩
        refine ⟨hk, ?_⟩
        rintro ⟨s', hs', hf, t, ht, htf, hq1, hq2, hgt⟩
        rcases List.mem_cons.1 hs' with e1 | hs'r
        · rw [e1] at hf hq1 hq2 hgt
          rcases List.mem_cons.1 ht with e2 | htr
          · rw [e2] at hgt; omega
          · exact h2 ⟨hf.symm, t, htr, htf, hq1, hq2, hgt⟩
        · rcases List.mem_cons.1 ht with e2 | htr
          · rw [e2] at hq1 hq2 hgt
            exact h3 ⟨s', hs'r, hf, hq1.symm, hq2.symm, hgt⟩
          · by_cases htf' : flag_has (dedup_inner s rest st).1 t.object_flag = true
            · exact h4 ⟨s', hs'r, hf, t, htr, htf', hq1, hq2, hgt⟩
            · rw [dedup_inner_char s rest st hd'.2] at htf'
              have hB : ∃ t2 ∈ rest, t2.object_flag = t.object_flag ∧
                  t2.monster_flag = s.monster_flag ∧ t2.resist_flag = s.resist_flag ∧
                  t2.mult < s.mult := by
                by_contra hB
                apply htf'
                refine ⟨htf, ?_, hB⟩
                rintro ⟨e, _⟩
                exact flag_ne_zero_of_has hs (hd'.1 t htr e.symm)
              obtain ⟨t2, ht2, hf2, hr1, hr2, hlt2⟩ := hB
              have et : t2 = t := eq_of_object_flag_eq hd'.2 ht2 htr hf2
                (hf2 ▸ flag_ne_zero_of_has htf)
              rw [et] at hr1 hr2 hlt2
              exact h3 ⟨s', hs'r, hf, hq1.symm.trans hr1, hq2.symm.trans hr2, by omega⟩
      · rintro ⟨hk, h2⟩
        refine ⟨⟨hk, ?_, ?_⟩, ?_⟩
        · rintro ⟨e, t, ht, htf, hq1, hq2, hgt⟩
          exact h2 ⟨s, List.mem_cons_self _ _, e.symm, t, List.mem_cons_of_mem _ ht, htf,
            hq1, hq2, hgt⟩
        · rintro ⟨t, ht, hf, hq1, hq2, hlt⟩
          exact h2 ⟨t, List.mem_cons_of_mem _ ht, hf, s, List.mem_cons_self _ _, hs,
            hq1.symm, hq2.symm, hlt⟩
        · rintro ⟨s', hs', hf, t, ht, htf, hq1, hq2, hgt⟩
          exact h2 ⟨s', List.mem_cons_of_mem _ hs', hf, t, List.mem_cons_of_mem _ ht,
            dedup_inner_subset _ _ _ _ htf, hq1, hq2, hgt⟩
    · rename_i hs
      rw [ih _ hd'.2]
      constructor
      · rintro ⟨hk, h2⟩
        refine ⟨hk, ?_⟩
        rintro ⟨s', hs', hf, t, ht, htf, hq1, hq2, hgt⟩
        rcases List.mem_cons.1 hs' with e1 | hs'r
        · rw [e1] at hf
          exact hs (hf ▸ hk)
        · rcases List.mem_cons.1 ht with e2 | htr
          · rw [e2] at htf
            exact hs htf
          · exact h2 ⟨s', hs'r, hf, t, htr, htf, hq1, hq2, hgt⟩
      · rintro ⟨hk, h2⟩
        refine ⟨hk, ?_⟩
        rintro ⟨s', hs', hf, t, ht, htf, hq1, hq2, hgt⟩
        exact h2 ⟨s', List.mem_cons_of_mem _ hs', hf, t, List.mem_cons_of_mem _ ht, htf,
          hq1, hq2, hgt⟩

/-! ## Claims on `dedup_slays` -/

/-- C8: over a table whose non-null rows carry pairwise distinct object flags,
after `dedup_slays` the bit of a table row `s` is set exactly when it was set
before and no row set before has the same monster flag and resist flag as `s`
with a strictly greater multiplier; every bit that is the object flag of no row
is as before. -/
theorem dedup_slays_keeps_strongest (slay_table : List slay) (flags : bitflag)
    (hd : slay_table.Pairwise
      (fun a b => a.object_flag = b.object_flag → a.object_flag = 0)) :
    (∀ s ∈ slay_table,
      (flag_has (dedup_slays slay_table flags).1 s.object_flag = true ↔
        flag_has flags s.object_flag = true ∧
        ¬ ∃ t ∈ slay_table, flag_has flags t.object_flag = true ∧
            t.monster_flag = s.monster_flag ∧ t.resist_flag = s.resist_flag ∧
            s.mult < t.mult)) ∧
    (∀ k, (∀ s ∈ slay_table, s.object_flag ≠ k) →
      flag_has (dedup_slays slay_table flags).1 k = flag_has flags k) := by
  constructor
  · intro s hs
    unfold dedup_slays
    rw [dedup_outer_char slay_table (flags, 0) hd]
    constructor
    · rintro ⟨hk, h2⟩
      refine ⟨hk, ?_⟩
      rintro ⟨t, ht, htf, hq1, hq2, hgt⟩
      exact h2 ⟨s, hs, rfl, t, ht, htf, hq1, hq2, hgt⟩
    · rintro ⟨hk, h2⟩
      refine ⟨hk, ?_⟩
      rintro ⟨s', hs', hf, t, ht, htf, hq1, hq2, hgt⟩
      have e : s' = s := eq_of_object_flag_eq hd hs' hs hf (hf ▸ flag_ne_zero_of_has hk)
      rw [e] at hq1 hq2 hgt
      exact h2 ⟨t, ht, htf, hq1, hq2, hgt⟩
  · intro k hk
    unfold dedup_slays
    rw [Bool.eq_iff_iff, dedup_outer_char slay_table (flags, 0) hd]
    constructor
    · exact fun h => h.1
    · intro h
      refine ⟨h, ?_⟩
      rintro ⟨s', hs', hf, _⟩
      exact hk s' hs' hf

/-- C8, at the orc table with both orc bits set: the hypothesis holds there,
and so does the conclusion. -/
theorem dedup_slays_keeps_strongest_witness :
    orc_table.Pairwise (fun a b => a.object_flag = b.object_flag → a.object_flag = 0) ∧
    ((∀ s ∈ orc_table,
      (flag_has (dedup_slays orc_table 3).1 s.object_flag = true ↔
        flag_has 3 s.object_flag = true ∧
        ¬ ∃ t ∈ orc_table, flag_has 3 t.object_flag = true ∧
            t.monster_flag = s.monster_flag ∧ t.resist_flag = s.resist_flag ∧
            s.mult < t.mult)) ∧
    (∀ k, (∀ s ∈ orc_table, s.object_flag ≠ k) →
      flag_has (dedup_slays orc_table 3).1 k = flag_has 3 k)) :=
  ⟨by decide, dedup_slays_keeps_strongest orc_table 3 (by decide)⟩

/-- C9: `dedup_slays` is idempotent over every table: run on the flag set it
produced, it leaves that flag set as it is. -/
theorem dedup_slays_idempotent (slay_table : List slay) (flags : bitflag) :
    (dedup_slays slay_table (dedup_slays slay_table flags).1).1 =
      (dedup_slays slay_table flags).1 := by
  have h := dedup_outer_no_conflict slay_table (flags, 0)
  unfold dedup_slays
  rw [dedup_outer_fix slay_table ((dedup_outer slay_table (flags, 0)).1, 0) h]

/-- C10, the code at the failing input: over the triple table with all three
bits set `dedup_slays` leaves only the bit of multiplier 3, so two bits were
cleared, and returns 3. -/
theorem dedup_slays_count_triple :
    dedup_slays triple_table 7 = (4, 3) ∧
    ((triple_table.map (fun s => s.object_flag)).filter
      (fun k => flag_has 7 k && !flag_has 4 k)).length = 2 := by
  decide

/-! ## Loops over chain positions -/

/-- An invariant indexed by the number of positions done holds after the whole
loop. -/
theorem foldl_range_inv {σ : Type} (P : Nat → σ → Prop) (step : σ → Nat → σ) (n : Nat)
    (s0 : σ) (h0 : P 0 s0)
    (hstep : ∀ i s, i < n → P i s → P (i + 1) (step s i)) :
    P n ((List.range n).foldl step s0) := by
  induction n with
  | zero => simpa using h0
  | succ n ih =>
    rw [List.range_succ, List.foldl_append]
    simp only [List.foldl_cons, List.foldl_nil]
    exact hstep n _ (Nat.lt_succ_self n)
      (ih (fun i s hi hp => hstep i s (Nat.lt_succ_of_lt hi) hp))

/-! ## Simulated attacks (`real` false) -/

theorem learn_brand_sim (env : Env) (m_ptr : monster_type) (b : brand) (st : attack_state) :
    learn_brand env m_ptr false b st = st := by
  simp [learn_brand]

theorem reinforce_brand_sim (env : Env) (m_ptr : monster_type) (i : Nat) (st : attack_state) :
    reinforce_brand env m_ptr false i st = st := by
  unfold reinforce_brand
  split <;> simp

theorem learn_slay_sim (env : Env) (m_ptr : monster_type) (s : new_slay) (st : attack_state) :
    learn_slay env m_ptr false s st = st := by
  simp [learn_slay]

theorem reinforce_slay_sim (m_ptr : monster_type) (j : Nat) (st : attack_state) :
    reinforce_slay m_ptr false j st = st := by
  unfold reinforce_slay
  split <;> simp

/-- The brand loop of a simulated attack: nothing but the winner is touched,
`best_mult` ends at least as large as every considered, applicable brand, and
either no brand was recorded or the recorded one is considered, applicable and
carries `best_mult`. -/
theorem brand_loop_sim (env : Env) (m_ptr : monster_type) (known_only : Bool)
    (st0 : attack_state) :
    (brand_loop env m_ptr false known_only st0).o_ptr = st0.o_ptr ∧
    (brand_loop env m_ptr false known_only st0).lore_flags = st0.lore_flags ∧
    (brand_loop env m_ptr false known_only st0).log = st0.log ∧
    (brand_loop env m_ptr false known_only st0).slay_used = st0.slay_used ∧
    st0.best_mult ≤ (brand_loop env m_ptr false known_only st0).best_mult ∧
    (∀ (k : Nat) (b : brand), st0.o_ptr.brands[k]? = some b → (known_only = false ∨ b.known = true) →
      brand_resisted env m_ptr b = false →
      b.multiplier ≤ (brand_loop env m_ptr false known_only st0).best_mult) ∧
    (((brand_loop env m_ptr false known_only st0).best_mult = st0.best_mult ∧
      (brand_loop env m_ptr false known_only st0).brand_used = st0.brand_used ∧
      (brand_loop env m_ptr false known_only st0).verb = st0.verb) ∨
     (∃ (k : Nat) (b : brand), st0.o_ptr.brands[k]? = some b ∧ (known_only = false ∨ b.known = true) ∧
      brand_resisted env m_ptr b = false ∧
      (brand_loop env m_ptr false known_only st0).brand_used = some k ∧
      (brand_loop env m_ptr false known_only st0).best_mult = b.multiplier ∧
      (brand_loop env m_ptr false known_only st0).verb = brand_verb env b)) := by
  have key := foldl_range_inv
    (fun i (st : attack_state) =>
      st.o_ptr = st0.o_ptr ∧ st.lore_flags = st0.lore_flags ∧ st.log = st0.log ∧
      st.slay_used = st0.slay_used ∧ st0.best_mult ≤ st.best_mult ∧
      (∀ (k : Nat) (b : brand), k < i → st0.o_ptr.brands[k]? = some b →
        (known_only = false ∨ b.known = true) →
        brand_resisted env m_ptr b = false → b.multiplier ≤ st.best_mult) ∧
      ((st.best_mult = st0.best_mult ∧ st.brand_used = st0.brand_used ∧
          st.verb = st0.verb) ∨
       (∃ (k : Nat) (b : brand), st0.o_ptr.brands[k]? = some b ∧ (known_only = false ∨ b.known = true) ∧
          brand_resisted env m_ptr b = false ∧ st.brand_used = some k ∧
          st.best_mult = b.multiplier ∧ st.verb = brand_verb env b)))
    (brand_step env m_ptr false known_only) st0.o_ptr.brands.length st0
    ⟨rfl, rfl, rfl, rfl, le_refl _, fun k b hk => absurd hk (Nat.not_lt_zero k),
      Or.inl ⟨rfl, rfl, rfl⟩⟩
    (by
      rintro i st hi ⟨ho, hl, hg, hsu, hle, hall, hwin⟩
      unfold brand_step
      rw [ho]
      cases hb : st0.o_ptr.brands[i]? with
      | none =>
        refine ⟨ho, hl, hg, hsu, hle, ?_, hwin⟩
        intro k b hk hkb
        rcases Nat.lt_succ_iff_lt_or_eq.1 hk with hk | hk
        · exact hall k b hk hkb
        · rw [hk, hb] at hkb; cases hkb
      | some b0 =>
        simp only
        by_cases hc : (known_only && !b0.known) = true
        · rw [if_pos hc]
          refine ⟨ho, hl, hg, hsu, hle, ?_, hwin⟩
          intro k b hk hkb hcons
          rcases Nat.lt_succ_iff_lt_or_eq.1 hk with hk | hk
          · exact hall k b hk hkb hcons
          · rw [hk, hb] at hkb
            cases hkb
            exfalso
            rcases hcons with h | h <;> simp [h] at hc
        · rw [if_neg hc, reinforce_brand_sim]
          have hcons : known_only = false ∨ b0.known = true := by
            cases hko : known_only <;> cases hkn : b0.known <;> simp [hko, hkn] at hc ⊢
          by_cases hr : brand_resisted env m_ptr b0 = true
          · simp only [hr, Bool.not_true, Bool.false_eq_true, if_false]
            refine ⟨ho, hl, hg, hsu, hle, ?_, hwin⟩
            intro k b hk hkb hcons' hres
            rcases Nat.lt_succ_iff_lt_or_eq.1 hk with hk | hk
            · exact hall k b hk hkb hcons' hres
            · rw [hk, hb] at hkb
              cases hkb
              rw [hr] at hres
              cases hres
          · have hr' : brand_resisted env m_ptr b0 = false := by
              simpa using hr
            simp only [hr', Bool.not_false, if_true, learn_brand_sim]
            unfold record_brand
            by_cases hlt : st.best_mult < b0.multiplier
            · rw [if_pos hlt]
              refine ⟨ho, hl, hg, hsu, by simp only; omega, ?_, Or.inr ⟨i, b0, hb, hcons, hr',
                rfl, rfl, rfl⟩⟩
              intro k b hk hkb hcons' hres
              rcases Nat.lt_succ_iff_lt_or_eq.1 hk with hk | hk
              · have := hall k b hk hkb hcons' hres
                simp only
                omega
              · rw [hk, hb] at hkb
                cases hkb
                exact le_refl _
            · rw [if_neg hlt]
              refine ⟨ho, hl, hg, hsu, hle, ?_, hwin⟩
              intro k b hk hkb hcons' hres
              rcases Nat.lt_succ_iff_lt_or_eq.1 hk with hk | hk
              · exact hall k b hk hkb hcons' hres
              · rw [hk, hb] at hkb
                cases hkb
                omega)
  obtain ⟨ho, hl, hg, hsu, hle, hall, hwin⟩ := key
  refine ⟨ho, hl, hg, hsu, hle, ?_, hwin⟩
  intro k b hkb
  have hk : k < st0.o_ptr.brands.length := by
    by_contra hge
    rw [List.getElem?_eq_none (Nat.le_of_not_lt hge)] at hkb
    cases hkb
  exact hall k b hk hkb

/-- The slay loop of a simulated attack: nothing but the winner is touched,
`best_mult` ends at least as large as every considered, applicable slay, and
either no slay was recorded or the recorded one is considered, applicable,
carries `best_mult`, and the brand slot is empty. -/
theorem slay_loop_sim (env : Env) (m_ptr : monster_type) (known_only : Bool)
    (st0 : attack_state) :
    (slay_loop env m_ptr false known_only st0).o_ptr = st0.o_ptr ∧
    (slay_loop env m_ptr false known_only st0).lore_flags = st0.lore_flags ∧
    (slay_loop env m_ptr false known_only st0).log = st0.log ∧
    st0.best_mult ≤ (slay_loop env m_ptr false known_only st0).best_mult ∧
    (∀ (k : Nat) (s : new_slay), st0.o_ptr.slays[k]? = some s →
      (known_only = false ∨ s.known = true) → slay_applies env m_ptr s = true →
      s.multiplier ≤ (slay_loop env m_ptr false known_only st0).best_mult) ∧
    (((slay_loop env m_ptr false known_only st0).best_mult = st0.best_mult ∧
      (slay_loop env m_ptr false known_only st0).brand_used = st0.brand_used ∧
      (slay_loop env m_ptr false known_only st0).slay_used = st0.slay_used ∧
      (slay_loop env m_ptr false known_only st0).verb = st0.verb) ∨
     (∃ (k : Nat) (s : new_slay), st0.o_ptr.slays[k]? = some s ∧
      (known_only = false ∨ s.known = true) ∧ slay_applies env m_ptr s = true ∧
      (slay_loop env m_ptr false known_only st0).brand_used = none ∧
      (slay_loop env m_ptr false known_only st0).slay_used = some k ∧
      (slay_loop env m_ptr false known_only st0).best_mult = s.multiplier ∧
      (slay_loop env m_ptr false known_only st0).verb = slay_verb s)) := by
  have key := foldl_range_inv
    (fun i (st : attack_state) =>
      st.o_ptr = st0.o_ptr ∧ st.lore_flags = st0.lore_flags ∧ st.log = st0.log ∧
      st0.best_mult ≤ st.best_mult ∧
      (∀ (k : Nat) (s : new_slay), k < i → st0.o_ptr.slays[k]? = some s →
        (known_only = false ∨ s.known = true) →
        slay_applies env m_ptr s = true → s.multiplier ≤ st.best_mult) ∧
      ((st.best_mult = st0.best_mult ∧ st.brand_used = st0.brand_used ∧
          st.slay_used = st0.slay_used ∧ st.verb = st0.verb) ∨
       (∃ (k : Nat) (s : new_slay), st0.o_ptr.slays[k]? = some s ∧
          (known_only = false ∨ s.known = true) ∧
          slay_applies env m_ptr s = true ∧ st.brand_used = none ∧
          st.slay_used = some k ∧ st.best_mult = s.multiplier ∧ st.verb = slay_verb s)))
    (slay_step env m_ptr false known_only) st0.o_ptr.slays.length st0
    ⟨rfl, rfl, rfl, le_refl _, fun k b hk => absurd hk (Nat.not_lt_zero k),
      Or.inl ⟨rfl, rfl, rfl, rfl⟩⟩
    (by
      rintro i st hi ⟨ho, hl, hg, hle, hall, hwin⟩
      unfold slay_step
      rw [ho]
      cases hb : st0.o_ptr.slays[i]? with
      | none =>
        refine ⟨ho, hl, hg, hle, ?_, hwin⟩
        intro k b hk hkb
        rcases Nat.lt_succ_iff_lt_or_eq.1 hk with hk | hk
        · exact hall k b hk hkb
        · rw [hk, hb] at hkb; cases hkb
      | some s0 =>
        simp only
        by_cases hc : (known_only && !s0.known) = true
        · rw [if_pos hc]
          refine ⟨ho, hl, hg, hle, ?_, hwin⟩
          intro k b hk hkb hcons
          rcases Nat.lt_succ_iff_lt_or_eq.1 hk with hk | hk
          · exact hall k b hk hkb hcons
          · rw [hk, hb] at hkb
            cases hkb
            exfalso
            rcases hcons with h | h <;> simp [h] at hc
        · rw [if_neg hc, reinforce_slay_sim]
          have hcons : known_only = false ∨ s0.known = true := by
            cases hko : known_only <;> cases hkn : s0.known <;> simp [hko, hkn] at hc ⊢
          by_cases hr : slay_applies env m_ptr s0 = true
          · simp only [hr, if_true, learn_slay_sim]
            unfold record_slay
            by_cases hlt : st.best_mult < s0.multiplier
            · rw [if_pos hlt]
              refine ⟨ho, hl, hg, by simp only; omega, ?_, Or.inr ⟨i, s0, hb, hcons, hr,
                rfl, rfl, rfl, rfl⟩⟩
              intro k b hk hkb hcons' hres
              rcases Nat.lt_succ_iff_lt_or_eq.1 hk with hk | hk
              · have := hall k b hk hkb hcons' hres
                simp only
                omega
              · rw [hk, hb] at hkb
                cases hkb
                exact le_refl _
            · rw [if_neg hlt]
              refine ⟨ho, hl, hg, hle, ?_, hwin⟩
              intro k b hk hkb hcons' hres
              rcases Nat.lt_succ_iff_lt_or_eq.1 hk with hk | hk
              · exact hall k b hk hkb hcons' hres
              · rw [hk, hb] at hkb
                cases hkb
                omega
          · rw [if_neg hr]
            refine ⟨ho, hl, hg, hle, ?_, hwin⟩
            intro k b hk hkb hcons' hres
            rcases Nat.lt_succ_iff_lt_or_eq.1 hk with hk | hk
            · exact hall k b hk hkb hcons' hres
            · rw [hk, hb] at hkb
              cases hkb
              exact absurd hres hr)
  obtain ⟨ho, hl, hg, hle, hall, hwin⟩ := key
  refine ⟨ho, hl, hg, hle, ?_, hwin⟩
  intro k b hkb
  have hk : k < st0.o_ptr.slays.length := by
    by_contra hge
    rw [List.getElem?_eq_none (Nat.le_of_not_lt hge)] at hkb
    cases hkb
  exact hall k b hk hkb

/-! ## Claims on simulated attacks -/

/-- C3: a call of `improve_attack_modifier` with `real` false leaves the object,
and so the known flag of every brand and slay, and the lore flags as they were,
and makes no call to the identify/notify collaborators. -/
theorem improve_attack_modifier_sim_frame (env : Env) (o_ptr : object_type)
    (m_ptr : monster_type) (l_flags : bitflag) (brand_used slay_used : Option Nat)
    (verb : String) (known_only : Bool) :
    (improve_attack_modifier env o_ptr m_ptr l_flags brand_used slay_used verb
      false known_only).o_ptr = o_ptr ∧
    (improve_attack_modifier env o_ptr m_ptr l_flags brand_used slay_used verb
      false known_only).lore_flags = l_flags ∧
    (improve_attack_modifier env o_ptr m_ptr l_flags brand_used slay_used verb
      false known_only).log = [] := by
  unfold improve_attack_modifier
  obtain ⟨ho, hl, hg, _⟩ := brand_loop_sim env m_ptr known_only
    { o_ptr := o_ptr, lore_flags := l_flags, brand_used := brand_used,
      slay_used := slay_used, verb := verb, best_mult := 1, log := [] }
  obtain ⟨ho2, hl2, hg2, _⟩ := slay_loop_sim env m_ptr known_only
    (brand_loop env m_ptr false known_only
      { o_ptr := o_ptr, lore_flags := l_flags, brand_used := brand_used,
        slay_used := slay_used, verb := verb, best_mult := 1, log := [] })
  exact ⟨ho2.trans ho, hl2.trans hl, hg2.trans hg⟩

/-- The outcome of a simulated attack: `best_mult` is at least 1 and at least
the multiplier of every considered, applicable brand and slay, and the call
either wrote nothing, or left a considered, applicable brand carrying
`best_mult` as winner, or left such a slay as winner with the brand slot
empty. -/
theorem improve_attack_modifier_sim_outcome (env : Env) (o_ptr : object_type)
    (m_ptr : monster_type) (l_flags : bitflag) (brand_used slay_used : Option Nat)
    (verb : String) (known_only : Bool) (r : attack_state)
    (hr : r = improve_attack_modifier env o_ptr m_ptr l_flags brand_used slay_used verb
      false known_only) :
    1 ≤ r.best_mult ∧
    (∀ b ∈ o_ptr.brands, (known_only = false ∨ b.known = true) →
      brand_resisted env m_ptr b = false → b.multiplier ≤ r.best_mult) ∧
    (∀ s ∈ o_ptr.slays, (known_only = false ∨ s.known = true) →
      slay_applies env m_ptr s = true → s.multiplier ≤ r.best_mult) ∧
    ((r.best_mult = 1 ∧ r.brand_used = brand_used ∧ r.slay_used = slay_used ∧
        r.verb = verb) ∨
     (∃ (k : Nat) (b : brand), o_ptr.brands[k]? = some b ∧
        (known_only = false ∨ b.known = true) ∧ brand_resisted env m_ptr b = false ∧
        r.brand_used = some k ∧ r.slay_used = slay_used ∧ r.best_mult = b.multiplier ∧
        r.verb = brand_verb env b) ∨
     (∃ (k : Nat) (s : new_slay), o_ptr.slays[k]? = some s ∧
        (known_only = false ∨ s.known = true) ∧ slay_applies env m_ptr s = true ∧
        r.brand_used = none ∧ r.slay_used = some k ∧ r.best_mult = s.multiplier ∧
        r.verb = slay_verb s)) := by
  subst hr
  unfold improve_attack_modifier
  obtain ⟨ho, _, _, hsu, hle, hall, hwin⟩ := brand_loop_sim env m_ptr known_only
    { o_ptr := o_ptr, lore_flags := l_flags, brand_used := brand_used,
      slay_used := slay_used, verb := verb, best_mult := 1, log := [] }
  obtain ⟨_, _, _, hle2, hall2, hwin2⟩ := slay_loop_sim env m_ptr known_only
    (brand_loop env m_ptr false known_only
      { o_ptr := o_ptr, lore_flags := l_flags, brand_used := brand_used,
        slay_used := slay_used, verb := verb, best_mult := 1, log := [] })
  simp only at ho hsu hle hall hwin
  rw [ho] at hall2 hwin2
  refine ⟨le_trans hle hle2, ?_, ?_, ?_⟩
  · intro b hb hc hres
    obtain ⟨k, hk⟩ := List.mem_iff_getElem?.1 hb
    exact le_trans (hall k b hk hc hres) hle2
  · intro s hs hc happ
    obtain ⟨k, hk⟩ := List.mem_iff_getElem?.1 hs
    exact hall2 k s hk hc happ
  · rcases hwin2 with ⟨e1, e2, e3, e4⟩ | ⟨k, s, hk, hc, happ, e1, e2, e3, e4⟩
    · rcases hwin with ⟨f1, f2, f3⟩ | ⟨k, b, hk, hc, hres, f1, f2, f3⟩
      · exact Or.inl ⟨e1.trans f1, e2.trans f2, e3.trans hsu, e4.trans f3⟩
      · exact Or.inr (Or.inl ⟨k, b, hk, hc, hres, e2.trans f1, e3.trans hsu, e1.trans f2,
          e4.trans f3⟩)
    · exact Or.inr (Or.inr ⟨k, s, hk, hc, happ, e1, e2, e3, e4⟩)

/-- C1: on a simulated attack entered with both winner slots empty, when some
considered brand or slay (known, or `known_only` false) applies to the monster
with a multiplier above 1, the call leaves exactly one winner recorded, a brand
or a slay of the object, which is considered, applies, and whose multiplier is
at least that of every considered, applicable brand and slay. -/
theorem improve_attack_modifier_best (env : Env) (o_ptr : object_type)
    (m_ptr : monster_type) (l_flags : bitflag) (verb : String) (known_only : Bool)
    (h : (∃ b ∈ o_ptr.brands, (known_only = false ∨ b.known = true) ∧
            brand_resisted env m_ptr b = false ∧ 1 < b.multiplier) ∨
         (∃ s ∈ o_ptr.slays, (known_only = false ∨ s.known = true) ∧
            slay_applies env m_ptr s = true ∧ 1 < s.multiplier)) :
    (∃ (k : Nat) (w : brand), o_ptr.brands[k]? = some w ∧
      (improve_attack_modifier env o_ptr m_ptr l_flags none none verb
        false known_only).brand_used = some k ∧
      (improve_attack_modifier env o_ptr m_ptr l_flags none none verb
        false known_only).slay_used = none ∧
      (known_only = false ∨ w.known = true) ∧ brand_resisted env m_ptr w = false ∧
      (∀ b ∈ o_ptr.brands, (known_only = false ∨ b.known = true) →
        brand_resisted env m_ptr b = false → b.multiplier ≤ w.multiplier) ∧
      (∀ s ∈ o_ptr.slays, (known_only = false ∨ s.known = true) →
        slay_applies env m_ptr s = true → s.multiplier ≤ w.multiplier)) ∨
    (∃ (k : Nat) (w : new_slay), o_ptr.slays[k]? = some w ∧
      (improve_attack_modifier env o_ptr m_ptr l_flags none none verb
        false known_only).slay_used = some k ∧
      (improve_attack_modifier env o_ptr m_ptr l_flags none none verb
        false known_only).brand_used = none ∧
      (known_only = false ∨ w.known = true) ∧ slay_applies env m_ptr w = true ∧
      (∀ b ∈ o_ptr.brands, (known_only = false ∨ b.known = true) →
        brand_resisted env m_ptr b = false → b.multiplier ≤ w.multiplier) ∧
      (∀ s ∈ o_ptr.slays, (known_only = false ∨ s.known = true) →
        slay_applies env m_ptr s = true → s.multiplier ≤ w.multiplier)) := by
  obtain ⟨_, hb, hs, hwin⟩ := improve_attack_modifier_sim_outcome env o_ptr m_ptr l_flags
    none none verb known_only _ rfl
  rcases hwin with ⟨e1, _⟩ | ⟨k, w, hk, hc, hres, e1, e2, e3, _⟩ |
      ⟨k, w, hk, hc, happ, e1, e2, e3, _⟩
  · exfalso
    rcases h with ⟨b, hbm, hc, hres, hgt⟩ | ⟨s, hsm, hc, happ, hgt⟩
    · have := hb b hbm hc hres
      omega
    · have := hs s hsm hc happ
      omega
  · exact Or.inl ⟨k, w, hk, e1, e2, hc, hres, fun b hbm hc' hr' => e3 ▸ hb b hbm hc' hr',
      fun s hsm hc' ha' => e3 ▸ hs s hsm hc' ha'⟩
  · exact Or.inr ⟨k, w, hk, e2, e1, hc, happ, fun b hbm hc' hr' => e3 ▸ hb b hbm hc' hr',
      fun s hsm hc' ha' => e3 ▸ hs s hsm hc' ha'⟩

/-- C1, at the flame tongue against the orc with `known_only` true: the slay
applies with multiplier 4, and the conclusion holds there. -/
theorem improve_attack_modifier_best_witness :
    ((∃ b ∈ flame_tongue.brands, (true = false ∨ b.known = true) ∧
            brand_resisted env0 orc b = false ∧ 1 < b.multiplier) ∨
         (∃ s ∈ flame_tongue.slays, (true = false ∨ s.known = true) ∧
            slay_applies env0 orc s = true ∧ 1 < s.multiplier)) ∧
    ((∃ (k : Nat) (w : brand), flame_tongue.brands[k]? = some w ∧
      (improve_attack_modifier env0 flame_tongue orc 0 none none "hit"
        false true).brand_used = some k ∧
      (improve_attack_modifier env0 flame_tongue orc 0 none none "hit"
        false true).slay_used = none ∧
      (true = false ∨ w.known = true) ∧ brand_resisted env0 orc w = false ∧
      (∀ b ∈ flame_tongue.brands, (true = false ∨ b.known = true) →
        brand_resisted env0 orc b = false → b.multiplier ≤ w.multiplier) ∧
      (∀ s ∈ flame_tongue.slays, (true = false ∨ s.known = true) →
        slay_applies env0 orc s = true → s.multiplier ≤ w.multiplier)) ∨
    (∃ (k : Nat) (w : new_slay), flame_tongue.slays[k]? = some w ∧
      (improve_attack_modifier env0 flame_tongue orc 0 none none "hit"
        false true).slay_used = some k ∧
      (improve_attack_modifier env0 flame_tongue orc 0 none none "hit"
        false true).brand_used = none ∧
      (true = false ∨ w.known = true) ∧ slay_applies env0 orc w = true ∧
      (∀ b ∈ flame_tongue.brands, (true = false ∨ b.known = true) →
        brand_resisted env0 orc b = false → b.multiplier ≤ w.multiplier) ∧
      (∀ s ∈ flame_tongue.slays, (true = false ∨ s.known = true) →
        slay_applies env0 orc s = true → s.multiplier ≤ w.multiplier))) :=
  ⟨by decide, improve_attack_modifier_best env0 flame_tongue orc 0 "hit" true (by decide)⟩

/-- C6: on a simulated attack, whatever the caller passed in the slots, when
some considered, applicable slay has a multiplier above 1 and strictly above
that of every considered, applicable brand, the call ends with the brand slot
empty and the slay slot on a considered, applicable slay whose multiplier is at
least that of every considered, applicable slay and brand. -/
theorem improve_attack_modifier_slay_beats_brand (env : Env) (o_ptr : object_type)
    (m_ptr : monster_type) (l_flags : bitflag) (brand_used slay_used : Option Nat)
    (verb : String) (known_only : Bool)
    (h : ∃ s ∈ o_ptr.slays, (known_only = false ∨ s.known = true) ∧
          slay_applies env m_ptr s = true ∧ 1 < s.multiplier ∧
          ∀ b ∈ o_ptr.brands, (known_only = false ∨ b.known = true) →
            brand_resisted env m_ptr b = false → b.multiplier < s.multiplier) :
    (improve_attack_modifier env o_ptr m_ptr l_flags brand_used slay_used verb
      false known_only).brand_used = none ∧
    ∃ (k : Nat) (w : new_slay), o_ptr.slays[k]? = some w ∧
      (improve_attack_modifier env o_ptr m_ptr l_flags brand_used slay_used verb
        false known_only).slay_used = some k ∧
      (known_only = false ∨ w.known = true) ∧ slay_applies env m_ptr w = true ∧
      (∀ s ∈ o_ptr.slays, (known_only = false ∨ s.known = true) →
        slay_applies env m_ptr s = true → s.multiplier ≤ w.multiplier) ∧
      (∀ b ∈ o_ptr.brands, (known_only = false ∨ b.known = true) →
        brand_resisted env m_ptr b = false → b.multiplier ≤ w.multiplier) := by
  obtain ⟨_, hb, hs, hwin⟩ := improve_attack_modifier_sim_outcome env o_ptr m_ptr l_flags
    brand_used slay_used verb known_only _ rfl
  obtain ⟨s0, hs0, hc0, ha0, hgt0, hbr0⟩ := h
  have hs0le := hs s0 hs0 hc0 ha0
  rcases hwin with ⟨e1, _⟩ | ⟨k, w, hk, hc, hres, e1, e2, e3, _⟩ |
      ⟨k, w, hk, hc, happ, e1, e2, e3, _⟩
  · omega
  · have := hbr0 w (List.getElem?_mem hk) hc hres
    omega
  · exact ⟨e1, k, w, hk, e2, hc, happ, fun s hsm hc' ha' => e3 ▸ hs s hsm hc' ha',
      fun b hbm hc' hr' => e3 ▸ hb b hbm hc' hr'⟩

/-- C6, at the flame tongue against the orc with a brand already in the
caller's slot: the slay of multiplier 4 beats the brand of multiplier 2. -/
theorem improve_attack_modifier_slay_beats_brand_witness :
    (∃ s ∈ flame_tongue.slays, (false = false ∨ s.known = true) ∧
          slay_applies env0 orc s = true ∧ 1 < s.multiplier ∧
          ∀ b ∈ flame_tongue.brands, (false = false ∨ b.known = true) →
            brand_resisted env0 orc b = false → b.multiplier < s.multiplier) ∧
    ((improve_attack_modifier env0 flame_tongue orc 0 (some 0) none "hit"
      false false).brand_used = none ∧
    ∃ (k : Nat) (w : new_slay), flame_tongue.slays[k]? = some w ∧
      (improve_attack_modifier env0 flame_tongue orc 0 (some 0) none "hit"
        false false).slay_used = some k ∧
      (false = false ∨ w.known = true) ∧ slay_applies env0 orc w = true ∧
      (∀ s ∈ flame_tongue.slays, (false = false ∨ s.known = true) →
        slay_applies env0 orc s = true → s.multiplier ≤ w.multiplier) ∧
      (∀ b ∈ flame_tongue.brands, (false = false ∨ b.known = true) →
        brand_resisted env0 orc b = false → b.multiplier ≤ w.multiplier)) :=
  ⟨by decide, improve_attack_modifier_slay_beats_brand env0 flame_tongue orc 0 (some 0) none
    "hit" false (by decide)⟩

/-! ## Real attacks: what learning leaves alone -/

theorem same_static_refl (o : object_type) : same_static o o := ⟨rfl, rfl⟩

theorem same_static_trans {o1 o2 o3 : object_type} (h1 : same_static o1 o2)
    (h2 : same_static o2 o3) : same_static o1 o3 :=
  ⟨h2.1.trans h1.1, h2.2.trans h1.2⟩

theorem set_same {α : Type} (l : List α) (i : Nat) (a : α) (h : l[i]? = some a) :
    l.set i a = l := by
  apply List.ext_getElem?
  intro j
  rw [List.getElem?_set]
  by_cases hij : i = j
  · subst hij
    rw [if_pos rfl, h]
    have : i < l.length := by
      by_contra hge
      rw [List.getElem?_eq_none (Nat.le_of_not_lt hge)] at h
      cases h
    rw [if_pos this]
  · rw [if_neg hij]

theorem same_static_brand_at {o o' : object_type} (h : same_static o o') {i : Nat}
    {b' : brand} (hb : o'.brands[i]? = some b') :
    ∃ b, o.brands[i]? = some b ∧ brand_static b = brand_static b' := by
  have h1 : (o'.brands.map brand_static)[i]? = some (brand_static b') := by
    rw [List.getElem?_map, hb]; rfl
  rw [h.1, List.getElem?_map] at h1
  cases hbo : o.brands[i]? with
  | none => rw [hbo] at h1; cases h1
  | some b =>
    rw [hbo] at h1
    exact ⟨b, rfl, Option.some.inj h1⟩

theorem same_static_slay_at {o o' : object_type} (h : same_static o o') {i : Nat}
    {s' : new_slay} (hs : o'.slays[i]? = some s') :
    ∃ s, o.slays[i]? = some s ∧ slay_static s = slay_static s' := by
  have h1 : (o'.slays.map slay_static)[i]? = some (slay_static s') := by
    rw [List.getElem?_map, hs]; rfl
  rw [h.2, List.getElem?_map] at h1
  cases hso : o.slays[i]? with
  | none => rw [hso] at h1; cases h1
  | some s =>
    rw [hso] at h1
    exact ⟨s, rfl, Option.some.inj h1⟩

theorem notice_brand_at_static (env : Env) (m_ptr : Option monster_type)
    (w : object_type × List Event) (i : Nat) :
    same_static w.1 (notice_brand_at env m_ptr w i).1 := by
  unfold notice_brand_at
  cases hb : w.1.brands[i]? with
  | none => exact same_static_refl _
  | some b =>
    simp only
    split
    · exact same_static_refl _
    · split
      · exact same_static_refl _
      · refine ⟨?_, rfl⟩
        simp only [List.map_set]
        apply set_same
        rw [List.getElem?_map, hb]
        rfl

theorem notice_slay_at_static (env : Env) (m_ptr : monster_type)
    (w : object_type × List Event) (i : Nat) :
    same_static w.1 (notice_slay_at env m_ptr w i).1 := by
  unfold notice_slay_at
  cases hs : w.1.slays[i]? with
  | none => exact same_static_refl _
  | some s =>
    simp only
    split
    · exact same_static_refl _
    · split
      · exact same_static_refl _
      · refine ⟨rfl, ?_⟩
        simp only [List.map_set]
        apply set_same
        rw [List.getElem?_map, hs]
        rfl

theorem object_notice_brands_static (env : Env) (m_ptr : Option monster_type)
    (w : object_type × List Event) :
    same_static w.1 (object_notice_brands env m_ptr w).1 := by
  unfold object_notice_brands
  exact foldl_range_inv (fun _ (w' : object_type × List Event) => same_static w.1 w'.1)
    (notice_brand_at env m_ptr) w.1.brands.length w (same_static_refl _)
    (fun i w' _ h => same_static_trans h (notice_brand_at_static env m_ptr w' i))

theorem object_notice_slays_static (env : Env) (m_ptr : monster_type)
    (w : object_type × List Event) :
    same_static w.1 (object_notice_slays env m_ptr w).1 := by
  unfold object_notice_slays
  exact foldl_range_inv (fun _ (w' : object_type × List Event) => same_static w.1 w'.1)
    (notice_slay_at env m_ptr) w.1.slays.length w (same_static_refl _)
    (fun i w' _ h => same_static_trans h (notice_slay_at_static env m_ptr w' i))

theorem reinforce_brand_frame (env : Env) (m_ptr : monster_type) (real : Bool) (i : Nat)
    (st : attack_state) :
    (reinforce_brand env m_ptr real i st).o_ptr = st.o_ptr ∧
    (reinforce_brand env m_ptr real i st).brand_used = st.brand_used ∧
    (reinforce_brand env m_ptr real i st).slay_used = st.slay_used ∧
    (reinforce_brand env m_ptr real i st).verb = st.verb ∧
    (reinforce_brand env m_ptr real i st).best_mult = st.best_mult ∧
    (m_ptr.ml = false → (reinforce_brand env m_ptr real i st).lore_flags = st.lore_flags) := by
  unfold reinforce_brand
  split
  · simp
  · split
    · rename_i h
      refine ⟨rfl, rfl, rfl, rfl, rfl, ?_⟩
      intro hml
      simp [hml] at h
    · simp

theorem reinforce_slay_frame (m_ptr : monster_type) (real : Bool) (j : Nat)
    (st : attack_state) :
    (reinforce_slay m_ptr real j st).o_ptr = st.o_ptr ∧
    (reinforce_slay m_ptr real j st).brand_used = st.brand_used ∧
    (reinforce_slay m_ptr real j st).slay_used = st.slay_used ∧
    (reinforce_slay m_ptr real j st).verb = st.verb ∧
    (reinforce_slay m_ptr real j st).best_mult = st.best_mult ∧
    (m_ptr.ml = false → (reinforce_slay m_ptr real j st).lore_flags = st.lore_flags) := by
  unfold reinforce_slay
  split
  · simp
  · split
    · rename_i h
      refine ⟨rfl, rfl, rfl, rfl, rfl, ?_⟩
      intro hml
      simp [hml] at h
    · simp

theorem learn_brand_frame (env : Env) (m_ptr : monster_type) (real : Bool) (b : brand)
    (st : attack_state) :
    same_static st.o_ptr (learn_brand env m_ptr real b st).o_ptr ∧
    (learn_brand env m_ptr real b st).brand_used = st.brand_used ∧
    (learn_brand env m_ptr real b st).slay_used = st.slay_used ∧
    (learn_brand env m_ptr real b st).verb = st.verb ∧
    (learn_brand env m_ptr real b st).best_mult = st.best_mult ∧
    (m_ptr.ml = false → (learn_brand env m_ptr real b st).lore_flags = st.lore_flags) := by
  unfold learn_brand
  cases real
  · simp [same_static_refl]
  · cases hml : m_ptr.ml
    · simp only [if_true, Bool.false_eq_true, if_false, true_and, implies_true, and_true]
      exact object_notice_brands_static env (some m_ptr) (st.o_ptr, st.log)
    · simp only [if_true, true_and, and_true]
      exact ⟨object_notice_brands_static env (some m_ptr) (st.o_ptr, st.log),
        fun h => Bool.noConfusion h⟩

theorem learn_slay_frame (env : Env) (m_ptr : monster_type) (real : Bool) (s : new_slay)
    (st : attack_state) :
    same_static st.o_ptr (learn_slay env m_ptr real s st).o_ptr ∧
    (learn_slay env m_ptr real s st).brand_used = st.brand_used ∧
    (learn_slay env m_ptr real s st).slay_used = st.slay_used ∧
    (learn_slay env m_ptr real s st).verb = st.verb ∧
    (learn_slay env m_ptr real s st).best_mult = st.best_mult ∧
    (m_ptr.ml = false → (learn_slay env m_ptr real s st).lore_flags = st.lore_flags) := by
  unfold learn_slay
  cases real
  · simp [same_static_refl]
  · cases hml : m_ptr.ml
    · simp only [if_true, Bool.false_eq_true, if_false, true_and, implies_true, and_true]
      exact object_notice_slays_static env m_ptr (st.o_ptr, st.log)
    · simp only [if_true, true_and, and_true]
      exact ⟨object_notice_slays_static env m_ptr (st.o_ptr, st.log),
        fun h => Bool.noConfusion h⟩

/-- One pass of the brand loop, real or simulated: the chains keep their static
part, the slay slot is left alone, the lore is left alone when the monster is
not visible, and either the winner is as before or the brand at this position,
not resisted and better than `best_mult`, was recorded with its verb. -/
theorem brand_step_frame (env : Env) (m_ptr : monster_type) (real known_only : Bool)
    (st : attack_state) (i : Nat) :
    same_static st.o_ptr (brand_step env m_ptr real known_only st i).o_ptr ∧
    (brand_step env m_ptr real known_only st i).slay_used = st.slay_used ∧
    (m_ptr.ml = false →
      (brand_step env m_ptr real known_only st i).lore_flags = st.lore_flags) ∧
    (((brand_step env m_ptr real known_only st i).best_mult = st.best_mult ∧
      (brand_step env m_ptr real known_only st i).brand_used = st.brand_used ∧
      (brand_step env m_ptr real known_only st i).verb = st.verb) ∨
     (∃ b, st.o_ptr.brands[i]? = some b ∧ brand_resisted env m_ptr b = false ∧
      st.best_mult < b.multiplier ∧
      (brand_step env m_ptr real known_only st i).best_mult = b.multiplier ∧
      (brand_step env m_ptr real known_only st i).brand_used = some i ∧
      (brand_step env m_ptr real known_only st i).verb = brand_verb env b)) := by
  unfold brand_step
  cases hb : st.o_ptr.brands[i]? with
  | none => exact ⟨same_static_refl _, rfl, fun _ => rfl, Or.inl ⟨rfl, rfl, rfl⟩⟩
  | some b =>
    simp only
    split
    · exact ⟨same_static_refl _, rfl, fun _ => rfl, Or.inl ⟨rfl, rfl, rfl⟩⟩
    · split
      · rename_i hres
        have hres' : brand_resisted env m_ptr b = false := by simpa using hres
        obtain ⟨r1, r2, r3, r4, r5, r6⟩ := reinforce_brand_frame env m_ptr real i
          (learn_brand env m_ptr real b (record_brand env b i st))
        obtain ⟨l1, l2, l3, l4, l5, l6⟩ := learn_brand_frame env m_ptr real b
          (record_brand env b i st)
        rw [r1, r2, r3, r4, r5, l2, l3, l4, l5]
        have hrec : (record_brand env b i st).o_ptr = st.o_ptr ∧
            (record_brand env b i st).slay_used = st.slay_used ∧
            (record_brand env b i st).lore_flags = st.lore_flags := by
          unfold record_brand; split <;> simp
        refine ⟨hrec.1 ▸ l1, hrec.2.1, fun hml => (r6 hml).trans ((l6 hml).trans hrec.2.2), ?_⟩
        unfold record_brand
        split
        · rename_i hlt
          exact Or.inr ⟨b, rfl, hres', hlt, rfl, rfl, rfl⟩
        · exact Or.inl ⟨rfl, rfl, rfl⟩
      · obtain ⟨r1, r2, r3, r4, r5, r6⟩ := reinforce_brand_frame env m_ptr real i st
        rw [r1, r2, r3, r4, r5]
        exact ⟨same_static_refl _, rfl, r6, Or.inl ⟨rfl, rfl, rfl⟩⟩

/-- One pass of the slay loop, real or simulated: the chains keep their static
part, the lore is left alone when the monster is not visible, and either the
winner is as before or the slay at this position, applicable and better than
`best_mult`, was recorded with its verb and the brand slot emptied. -/
theorem slay_step_frame (env : Env) (m_ptr : monster_type) (real known_only : Bool)
    (st : attack_state) (j : Nat) :
    same_static st.o_ptr (slay_step env m_ptr real known_only st j).o_ptr ∧
    (m_ptr.ml = false →
      (slay_step env m_ptr real known_only st j).lore_flags = st.lore_flags) ∧
    (((slay_step env m_ptr real known_only st j).best_mult = st.best_mult ∧
      (slay_step env m_ptr real known_only st j).brand_used = st.brand_used ∧
      (slay_step env m_ptr real known_only st j).slay_used = st.slay_used ∧
      (slay_step env m_ptr real known_only st j).verb = st.verb) ∨
     (∃ s, st.o_ptr.slays[j]? = some s ∧ slay_applies env m_ptr s = true ∧
      st.best_mult < s.multiplier ∧
      (slay_step env m_ptr real known_only st j).best_mult = s.multiplier ∧
      (slay_step env m_ptr real known_only st j).brand_used = none ∧
      (slay_step env m_ptr real known_only st j).slay_used = some j ∧
      (slay_step env m_ptr real known_only st j).verb = slay_verb s)) := by
  unfold slay_step
  cases hs : st.o_ptr.slays[j]? with
  | none => exact ⟨same_static_refl _, fun _ => rfl, Or.inl ⟨rfl, rfl, rfl, rfl⟩⟩
  | some s =>
    simp only
    split
    · exact ⟨same_static_refl _, fun _ => rfl, Or.inl ⟨rfl, rfl, rfl, rfl⟩⟩
    · split
      · rename_i happ
        obtain ⟨r1, r2, r3, r4, r5, r6⟩ := reinforce_slay_frame m_ptr real j
          (learn_slay env m_ptr real s (record_slay s j st))
        obtain ⟨l1, l2, l3, l4, l5, l6⟩ := learn_slay_frame env m_ptr real s
          (record_slay s j st)
        rw [r1, r2, r3, r4, r5, l2, l3, l4, l5]
        have hrec : (record_slay s j st).o_ptr = st.o_ptr ∧
            (record_slay s j st).lore_flags = st.lore_flags := by
          unfold record_slay; split <;> simp
        refine ⟨hrec.1 ▸ l1, fun hml => (r6 hml).trans ((l6 hml).trans hrec.2), ?_⟩
        unfold record_slay
        split
        · rename_i hlt
          exact Or.inr ⟨s, rfl, happ, hlt, rfl, rfl, rfl, rfl⟩
        · exact Or.inl ⟨rfl, rfl, rfl, rfl⟩
      · obtain ⟨r1, r2, r3, r4, r5, r6⟩ := reinforce_slay_frame m_ptr real j st
        rw [r1, r2, r3, r4, r5]
        exact ⟨same_static_refl _, r6, Or.inl ⟨rfl, rfl, rfl, rfl⟩⟩

theorem brand_static_eq {b b' : brand} (h : brand_static b = brand_static b') (env : Env)
    (m_ptr : monster_type) :
    brand_resisted env m_ptr b = brand_resisted env m_ptr b' ∧
    b.multiplier = b'.multiplier ∧ brand_verb env b = brand_verb env b' := by
  simp only [brand_static, Prod.mk.injEq] at h
  obtain ⟨_, he, hm⟩ := h
  simp [brand_resisted, brand_verb, he, hm]

theorem slay_static_eq {s s' : new_slay} (h : slay_static s = slay_static s') (env : Env)
    (m_ptr : monster_type) :
    slay_applies env m_ptr s = slay_applies env m_ptr s' ∧
    s.multiplier = s'.multiplier ∧ slay_verb s = slay_verb s' := by
  simp only [slay_static, Prod.mk.injEq] at h
  obtain ⟨hn, hf, hm⟩ := h
  simp [slay_applies, slay_verb, hn, hf, hm]

/-- The brand loop, real or simulated. -/
theorem brand_loop_frame (env : Env) (m_ptr : monster_type) (real known_only : Bool)
    (st0 : attack_state) :
    same_static st0.o_ptr (brand_loop env m_ptr real known_only st0).o_ptr ∧
    (brand_loop env m_ptr real known_only st0).slay_used = st0.slay_used ∧
    (m_ptr.ml = false →
      (brand_loop env m_ptr real known_only st0).lore_flags = st0.lore_flags) ∧
    st0.best_mult ≤ (brand_loop env m_ptr real known_only st0).best_mult ∧
    (((brand_loop env m_ptr real known_only st0).best_mult = st0.best_mult ∧
      (brand_loop env m_ptr real known_only st0).brand_used = st0.brand_used ∧
      (brand_loop env m_ptr real known_only st0).verb = st0.verb) ∨
     (∃ (k : Nat) (b : brand), st0.o_ptr.brands[k]? = some b ∧
      brand_resisted env m_ptr b = false ∧ st0.best_mult < b.multiplier ∧
      (brand_loop env m_ptr real known_only st0).best_mult = b.multiplier ∧
      (brand_loop env m_ptr real known_only st0).brand_used = some k ∧
      (brand_loop env m_ptr real known_only st0).verb = brand_verb env b)) := by
  unfold brand_loop
  exact foldl_range_inv
    (fun _ (st : attack_state) =>
      same_static st0.o_ptr st.o_ptr ∧ st.slay_used = st0.slay_used ∧
      (m_ptr.ml = false → st.lore_flags = st0.lore_flags) ∧
      st0.best_mult ≤ st.best_mult ∧
      ((st.best_mult = st0.best_mult ∧ st.brand_used = st0.brand_used ∧
          st.verb = st0.verb) ∨
       (∃ (k : Nat) (b : brand), st0.o_ptr.brands[k]? = some b ∧
          brand_resisted env m_ptr b = false ∧ st0.best_mult < b.multiplier ∧
          st.best_mult = b.multiplier ∧ st.brand_used = some k ∧
          st.verb = brand_verb env b)))
    (brand_step env m_ptr real known_only) st0.o_ptr.brands.length st0
    ⟨same_static_refl _, rfl, fun _ => rfl, le_refl _, Or.inl ⟨rfl, rfl, rfl⟩⟩
    (by
      rintro i st _ ⟨hs, hsu, hl, hle, hwin⟩
      obtain ⟨f1, f2, f3, f4⟩ := brand_step_frame env m_ptr real known_only st i
      refine ⟨same_static_trans hs f1, f2.trans hsu, fun hml => (f3 hml).trans (hl hml), ?_, ?_⟩
      · rcases f4 with ⟨e1, _, _⟩ | ⟨b, _, _, hlt, e1, _, _⟩
        · rw [e1]; exact hle
        · rw [e1]; omega
      · rcases f4 with ⟨e1, e2, e3⟩ | ⟨b', hb', hres, hlt, e1, e2, e3⟩
        · rcases hwin with ⟨g1, g2, g3⟩ | ⟨k, b, hk, hres, hgt, g1, g2, g3⟩
          · exact Or.inl ⟨e1.trans g1, e2.trans g2, e3.trans g3⟩
          · exact Or.inr ⟨k, b, hk, hres, hgt, e1.trans g1, e2.trans g2, e3.trans g3⟩
        · obtain ⟨b, hb, hst⟩ := same_static_brand_at hs hb'
          obtain ⟨t1, t2, t3⟩ := brand_static_eq hst env m_ptr
          exact Or.inr ⟨i, b, hb, t1.trans hres, by omega, e1.trans t2.symm, e2,
            e3.trans t3.symm⟩)

/-- The slay loop, real or simulated. -/
theorem slay_loop_frame (env : Env) (m_ptr : monster_type) (real known_only : Bool)
    (st0 : attack_state) :
    same_static st0.o_ptr (slay_loop env m_ptr real known_only st0).o_ptr ∧
    (m_ptr.ml = false →
      (slay_loop env m_ptr real known_only st0).lore_flags = st0.lore_flags) ∧
    st0.best_mult ≤ (slay_loop env m_ptr real known_only st0).best_mult ∧
    (((slay_loop env m_ptr real known_only st0).best_mult = st0.best_mult ∧
      (slay_loop env m_ptr real known_only st0).brand_used = st0.brand_used ∧
      (slay_loop env m_ptr real known_only st0).slay_used = st0.slay_used ∧
      (slay_loop env m_ptr real known_only st0).verb = st0.verb) ∨
     (∃ (k : Nat) (s : new_slay), st0.o_ptr.slays[k]? = some s ∧
      slay_applies env m_ptr s = true ∧ st0.best_mult < s.multiplier ∧
      (slay_loop env m_ptr real known_only st0).best_mult = s.multiplier ∧
      (slay_loop env m_ptr real known_only st0).brand_used = none ∧
      (slay_loop env m_ptr real known_only st0).slay_used = some k ∧
      (slay_loop env m_ptr real known_only st0).verb = slay_verb s)) := by
  unfold slay_loop
  exact foldl_range_inv
    (fun _ (st : attack_state) =>
      same_static st0.o_ptr st.o_ptr ∧
      (m_ptr.ml = false → st.lore_flags = st0.lore_flags) ∧
      st0.best_mult ≤ st.best_mult ∧
      ((st.best_mult = st0.best_mult ∧ st.brand_used = st0.brand_used ∧
          st.slay_used = st0.slay_used ∧ st.verb = st0.verb) ∨
       (∃ (k : Nat) (s : new_slay), st0.o_ptr.slays[k]? = some s ∧
          slay_applies env m_ptr s = true ∧ st0.best_mult < s.multiplier ∧
          st.best_mult = s.multiplier ∧ st.brand_used = none ∧ st.slay_used = some k ∧
          st.verb = slay_verb s)))
    (slay_step env m_ptr real known_only) st0.o_ptr.slays.length st0
    ⟨same_static_refl _, fun _ => rfl, le_refl _, Or.inl ⟨rfl, rfl, rfl, rfl⟩⟩
    (by
      rintro i st _ ⟨hs, hl, hle, hwin⟩
      obtain ⟨f1, f3, f4⟩ := slay_step_frame env m_ptr real known_only st i
      refine ⟨same_static_trans hs f1, fun hml => (f3 hml).trans (hl hml), ?_, ?_⟩
      · rcases f4 with ⟨e1, _, _, _⟩ | ⟨s, _, _, hlt, e1, _, _, _⟩
        · rw [e1]; exact hle
        · rw [e1]; omega
      · rcases f4 with ⟨e1, e2, e3, e4⟩ | ⟨s', hs', happ, hlt, e1, e2, e3, e4⟩
        · rcases hwin with ⟨g1, g2, g3, g4⟩ | ⟨k, s, hk, happ, hgt, g1, g2, g3, g4⟩
          · exact Or.inl ⟨e1.trans g1, e2.trans g2, e3.trans g3, e4.trans g4⟩
          · exact Or.inr ⟨k, s, hk, happ, hgt, e1.trans g1, e2.trans g2, e3.trans g3,
              e4.trans g4⟩
        · obtain ⟨s, hs0, hst⟩ := same_static_slay_at hs hs'
          obtain ⟨t1, t2, t3⟩ := slay_static_eq hst env m_ptr
          exact Or.inr ⟨i, s, hs0, t1.trans happ, by omega, e1.trans t2.symm, e2, e3,
            e4.trans t3.symm⟩)

/-- The outcome of any call: the chains keep their static part, the lore is as
before when the monster is not visible, and the call either wrote no winner, or
ended on a brand that is not resisted and has a multiplier above 1, or ended
on an applicable slay with a multiplier above 1 and the brand slot empty. -/
theorem improve_attack_modifier_outcome (env : Env) (o_ptr : object_type)
    (m_ptr : monster_type) (l_flags : bitflag) (brand_used slay_used : Option Nat)
    (verb : String) (real known_only : Bool) (r : attack_state)
    (hr : r = improve_attack_modifier env o_ptr m_ptr l_flags brand_used slay_used verb
      real known_only) :
    same_static o_ptr r.o_ptr ∧
    (m_ptr.ml = false → r.lore_flags = l_flags) ∧
    ((r.best_mult = 1 ∧ r.brand_used = brand_used ∧ r.slay_used = slay_used ∧
        r.verb = verb) ∨
     (∃ (k : Nat) (b : brand), o_ptr.brands[k]? = some b ∧
        brand_resisted env m_ptr b = false ∧ 1 < b.multiplier ∧
        r.brand_used = some k ∧ r.slay_used = slay_used ∧ r.verb = brand_verb env b) ∨
     (∃ (k : Nat) (s : new_slay), o_ptr.slays[k]? = some s ∧
        slay_applies env m_ptr s = true ∧ 1 < s.multiplier ∧
        r.brand_used = none ∧ r.slay_used = some k ∧ r.verb = slay_verb s)) := by
  subst hr
  unfold improve_attack_modifier
  obtain ⟨hs, hsu, hl, hle, hwin⟩ := brand_loop_frame env m_ptr real known_only
    { o_ptr := o_ptr, lore_flags := l_flags, brand_used := brand_used,
      slay_used := slay_used, verb := verb, best_mult := 1, log := [] }
  obtain ⟨hs2, hl2, _, hwin2⟩ := slay_loop_frame env m_ptr real known_only
    (brand_loop env m_ptr real known_only
      { o_ptr := o_ptr, lore_flags := l_flags, brand_used := brand_used,
        slay_used := slay_used, verb := verb, best_mult := 1, log := [] })
  simp only at hs hsu hl hle hwin
  refine ⟨same_static_trans hs hs2, fun hml => (hl2 hml).trans (hl hml), ?_⟩
  rcases hwin2 with ⟨e1, e2, e3, e4⟩ | ⟨k, s', hk', happ, hgt, _, e2, e3, e4⟩
  · rcases hwin with ⟨f1, f2, f3⟩ | ⟨k, b, hk, hres, hgt, _, f2, f3⟩
    · exact Or.inl ⟨e1.trans f1, e2.trans f2, e3.trans hsu, e4.trans f3⟩
    · exact Or.inr (Or.inl ⟨k, b, hk, hres, hgt, e2.trans f2, e3.trans hsu, e4.trans f3⟩)
  · obtain ⟨s, hk, hst⟩ := same_static_slay_at hs hk'
    obtain ⟨t1, t2, t3⟩ := slay_static_eq hst env m_ptr
    exact Or.inr (Or.inr ⟨k, s, hk, t1.trans happ, by omega, e2, e3, e4.trans t3.symm⟩)

/-- Every verb of `brand_info[]` fits the 20-character buffer, so the copy
keeps it whole. -/
theorem brand_verb_text (env : Env) (b : brand) :
    brand_verb env b =
      if b.multiplier < 3 then (brand_info env b.element).melee_verb_weak
      else (brand_info env b.element).melee_verb := by
  unfold brand_verb
  have h1 : ∀ e : Fin 5, my_strcpy (brand_info env e).melee_verb_weak 20 =
      (brand_info env e).melee_verb_weak := by
    intro e; fin_cases e <;> rfl
  have h2 : ∀ e : Fin 5, my_strcpy (brand_info env e).melee_verb 20 =
      (brand_info env e).melee_verb := by
    intro e; fin_cases e <;> rfl
  rw [h1, h2]

theorem slay_verb_text (s : new_slay) :
    slay_verb s = if s.multiplier ≤ 3 then "smite" else "fiercely smite" := by
  unfold slay_verb
  have h1 : my_strcpy "smite" 20 = "smite" := by decide
  have h2 : my_strcpy "fiercely smite" 20 = "fiercely smite" := by decide
  rw [h1, h2]

/-! ## Claims on every call -/

/-- C2, the code at the failing input: on a real attack with `known_only` true
against a plain orc, the known fire brand makes `object_notice_brands` learn
the cold brand, which the loop then records as winner although it was not
known when the call started. -/
theorem improve_attack_modifier_picks_just_learned :
    (twin_brands.brands[1]?).map (fun b => b.known) = some false ∧
    (improve_attack_modifier env0 twin_brands orc 0 none none "hit" true true).brand_used =
      some 1 := by
  decide

/-- C4: when the monster is not visible (`ml` false), a call of
`improve_attack_modifier`, real or simulated, leaves the lore flags of the
monster's race as they were. -/
theorem improve_attack_modifier_unseen_lore (env : Env) (o_ptr : object_type)
    (m_ptr : monster_type) (l_flags : bitflag) (brand_used slay_used : Option Nat)
    (verb : String) (real known_only : Bool) (hml : m_ptr.ml = false) :
    (improve_attack_modifier env o_ptr m_ptr l_flags brand_used slay_used verb
      real known_only).lore_flags = l_flags :=
  (improve_attack_modifier_outcome env o_ptr m_ptr l_flags brand_used slay_used verb
    real known_only _ rfl).2.1 hml

/-- C4, at a real attack with the flame tongue on the hidden orc. -/
theorem improve_attack_modifier_unseen_lore_witness :
    hidden_orc.ml = false ∧
    (improve_attack_modifier env0 flame_tongue hidden_orc 0 none none "hit"
      true false).lore_flags = 0 :=
  ⟨rfl, improve_attack_modifier_unseen_lore env0 flame_tongue hidden_orc 0 none none "hit"
    true false rfl⟩

/-- C5: every call of `improve_attack_modifier` either leaves the two slots and
the verb as the caller passed them, or ends on a brand `b` of the object with
the verb `melee_verb_weak` of its element when `b.multiplier < 3` and
`melee_verb` otherwise, or ends on a slay `s` of the object, the brand slot
empty, with the verb "smite" when `s.multiplier ≤ 3` and "fiercely smite"
otherwise.  In particular, entered with an empty brand slot, a brand in the
slot at the end has its verb written, and likewise for the slay slot. -/
theorem improve_attack_modifier_verb (env : Env) (o_ptr : object_type)
    (m_ptr : monster_type) (l_flags : bitflag) (brand_used slay_used : Option Nat)
    (verb : String) (real known_only : Bool) :
    (((improve_attack_modifier env o_ptr m_ptr l_flags brand_used slay_used verb
          real known_only).brand_used = brand_used ∧
      (improve_attack_modifier env o_ptr m_ptr l_flags brand_used slay_used verb
          real known_only).slay_used = slay_used ∧
      (improve_attack_modifier env o_ptr m_ptr l_flags brand_used slay_used verb
          real known_only).verb = verb) ∨
     (∃ (k : Nat) (b : brand), o_ptr.brands[k]? = some b ∧
      (improve_attack_modifier env o_ptr m_ptr l_flags brand_used slay_used verb
          real known_only).brand_used = some k ∧
      (improve_attack_modifier env o_ptr m_ptr l_flags brand_used slay_used verb
          real known_only).slay_used = slay_used ∧
      (improve_attack_modifier env o_ptr m_ptr l_flags brand_used slay_used verb
          real known_only).verb =
        if b.multiplier < 3 then (brand_info env b.element).melee_verb_weak
        else (brand_info env b.element).melee_verb) ∨
     (∃ (k : Nat) (s : new_slay), o_ptr.slays[k]? = some s ∧
      (improve_attack_modifier env o_ptr m_ptr l_flags brand_used slay_used verb
          real known_only).brand_used = none ∧
      (improve_attack_modifier env o_ptr m_ptr l_flags brand_used slay_used verb
          real known_only).slay_used = some k ∧
      (improve_attack_modifier env o_ptr m_ptr l_flags brand_used slay_used verb
          real known_only).verb =
        if s.multiplier ≤ 3 then "smite" else "fiercely smite")) ∧
    (brand_used = none → ∀ k,
      (improve_attack_modifier env o_ptr m_ptr l_flags brand_used slay_used verb
          real known_only).brand_used = some k →
      ∃ b, o_ptr.brands[k]? = some b ∧
        (improve_attack_modifier env o_ptr m_ptr l_flags brand_used slay_used verb
            real known_only).verb =
          if b.multiplier < 3 then (brand_info env b.element).melee_verb_weak
          else (brand_info env b.element).melee_verb) ∧
    (slay_used = none → ∀ k,
      (improve_attack_modifier env o_ptr m_ptr l_flags brand_used slay_used verb
          real known_only).slay_used = some k →
      ∃ s, o_ptr.slays[k]? = some s ∧
        (improve_attack_modifier env o_ptr m_ptr l_flags brand_used slay_used verb
            real known_only).verb =
          if s.multiplier ≤ 3 then "smite" else "fiercely smite") := by
  obtain ⟨_, _, hwin⟩ := improve_attack_modifier_outcome env o_ptr m_ptr l_flags
    brand_used slay_used verb real known_only _ rfl
  rcases hwin with ⟨_, e1, e2, e3⟩ | ⟨k, b, hk, _, _, e1, e2, e3⟩ |
      ⟨k, s, hk, _, _, e1, e2, e3⟩
  · refine ⟨Or.inl ⟨e1, e2, e3⟩, ?_, ?_⟩
    · intro hb k hk
      rw [e1, hb] at hk
      cases hk
    · intro hs k hk
      rw [e2, hs] at hk
      cases hk
  · rw [brand_verb_text] at e3
    refine ⟨Or.inr (Or.inl ⟨k, b, hk, e1, e2, e3⟩), ?_, ?_⟩
    · intro _ k' hk'
      rw [e1] at hk'
      cases hk'
      exact ⟨b, hk, e3⟩
    · intro hs k' hk'
      rw [e2, hs] at hk'
      cases hk'
  · rw [slay_verb_text] at e3
    refine ⟨Or.inr (Or.inr ⟨k, s, hk, e1, e2, e3⟩), ?_, ?_⟩
    · intro _ k' hk'
      rw [e1] at hk'
      cases hk'
    · intro _ k' hk'
      rw [e2] at hk'
      cases hk'
      exact ⟨s, hk, e3⟩

/-- C7: when every brand of the object is resisted by the monster or has a
multiplier of at most 1, and every slay is inapplicable or has a multiplier of
at most 1, a call of `improve_attack_modifier`, real or simulated, leaves
`brand_used`, `slay_used` and the verb as the caller passed them and
`best_mult` at the baseline 1. -/
theorem improve_attack_modifier_no_bonus (env : Env) (o_ptr : object_type)
    (m_ptr : monster_type) (l_flags : bitflag) (brand_used slay_used : Option Nat)
    (verb : String) (real known_only : Bool)
    (hb : ∀ b ∈ o_ptr.brands, brand_resisted env m_ptr b = true ∨ b.multiplier ≤ 1)
    (hs : ∀ s ∈ o_ptr.slays, slay_applies env m_ptr s = false ∨ s.multiplier ≤ 1) :
    (improve_attack_modifier env o_ptr m_ptr l_flags brand_used slay_used verb
      real known_only).brand_used = brand_used ∧
    (improve_attack_modifier env o_ptr m_ptr l_flags brand_used slay_used verb
      real known_only).slay_used = slay_used ∧
    (improve_attack_modifier env o_ptr m_ptr l_flags brand_used slay_used verb
      real known_only).verb = verb ∧
    (improve_attack_modifier env o_ptr m_ptr l_flags brand_used slay_used verb
      real known_only).best_mult = 1 := by
  obtain ⟨_, _, hwin⟩ := improve_attack_modifier_outcome env o_ptr m_ptr l_flags
    brand_used slay_used verb real known_only _ rfl
  rcases hwin with ⟨e0, e1, e2, e3⟩ | ⟨k, b, hk, hres, hgt, _⟩ |
      ⟨k, s, hk, happ, hgt, _⟩
  · exact ⟨e1, e2, e3, e0⟩
  · exfalso
    rcases hb b (List.getElem?_mem hk) with h | h
    · rw [hres] at h; cases h
    · omega
  · exfalso
    rcases hs s (List.getElem?_mem hk) with h | h
    · rw [happ] at h; cases h
    · omega

/-- C7, at a real attack with the fire blade on the fire-immune orc. -/
theorem improve_attack_modifier_no_bonus_witness :
    (∀ b ∈ fire_blade.brands, brand_resisted env0 fire_orc b = true ∨ b.multiplier ≤ 1) ∧
    (∀ s ∈ fire_blade.slays, slay_applies env0 fire_orc s = false ∨ s.multiplier ≤ 1) ∧
    ((improve_attack_modifier env0 fire_blade fire_orc 0 none none "hit"
      true false).brand_used = none ∧
    (improve_attack_modifier env0 fire_blade fire_orc 0 none none "hit"
      true false).slay_used = none ∧
    (improve_attack_modifier env0 fire_blade fire_orc 0 none none "hit"
      true false).verb = "hit" ∧
    (improve_attack_modifier env0 fire_blade fire_orc 0 none none "hit"
      true false).best_mult = 1) :=
  ⟨by decide, by decide, improve_attack_modifier_no_bonus env0 fire_blade fire_orc 0 none none
    "hit" true false (by decide) (by decide)⟩

/-! ## `react_to_slay` -/

theorem react_to_slay_from_iff (mon : monster_type) (l : List new_slay) :
    react_to_slay_from mon l = true ↔
      ∃ s ∈ l, flag_has mon.race.flags s.race_flag = true ∨ s.name ≠ mon.race.base.name := by
  induction l with
  | nil => simp [react_to_slay_from]
  | cons s rest ih =>
    unfold react_to_slay_from
    by_cases h1 : flag_has mon.race.flags s.race_flag = true
    · rw [if_pos h1]
      simp [h1]
    · rw [if_neg h1]
      by_cases h2 : s.name = mon.race.base.name
      · have h2' : (!(s.name == mon.race.base.name)) = false := by simp [h2]
        rw [h2', if_neg (by simp), ih]
        constructor
        · rintro ⟨t, ht, hp⟩
          exact ⟨t, List.mem_cons_of_mem _ ht, hp⟩
        · rintro ⟨t, ht, hp⟩
          rcases List.mem_cons.1 ht with e | ht
          · rw [e] at hp
            rcases hp with hp | hp
            · exact absurd hp h1
            · exact absurd h2 hp
          · exact ⟨t, ht, hp⟩
      · have h2' : (!(s.name == mon.race.base.name)) = true := by simp [h2]
        rw [h2', if_pos rfl]
        simp only [true_iff]
        exact ⟨s, List.mem_cons_self _ _, Or.inr h2⟩

/-- C19: `react_to_slay` returns TRUE exactly when the slay chain has an entry
whose race flag is among the monster's race flags or whose name differs from
the monster's race-base name; so it returns FALSE for the empty chain and for a
chain in which every entry carries the base name and a race flag the monster
lacks, however long the chain. -/
theorem react_to_slay_iff (obj : object_type) (mon : monster_type) :
    (react_to_slay obj mon = true ↔
      ∃ s ∈ obj.slays, flag_has mon.race.flags s.race_flag = true ∨
        s.name ≠ mon.race.base.name) ∧
    (obj.slays = [] → react_to_slay obj mon = false) ∧
    ((∀ s ∈ obj.slays, s.name = mon.race.base.name ∧
        flag_has mon.race.flags s.race_flag = false) →
      react_to_slay obj mon = false) := by
  have key := react_to_slay_from_iff mon obj.slays
  refine ⟨key, ?_, ?_⟩
  · intro h
    unfold react_to_slay
    rw [h]
    rfl
  · intro h
    cases hr : react_to_slay obj mon with
    | false => rfl
    | true =>
      exfalso
      obtain ⟨s, hs, hp⟩ := key.1 hr
      obtain ⟨hn, hf⟩ := h s hs
      rcases hp with hp | hp
      · rw [hf] at hp; cases hp
      · exact hp hn

/-! ## `random_slay` -/

theorem flag_has_empty (k : Nat) : flag_has 0 k = false := by
  simp [flag_has]

/-- Over a mask without an eligible row the loop is still running after any
number of draws. -/
theorem random_slay_spins (slay_table : List slay) (mask : bitflag) (rng : Nat → Nat)
    (hm : ∀ (i : Nat) (s : slay), 1 ≤ i → slay_table[i]? = some s →
      flag_has mask s.object_flag = false)
    (hr : ∀ k, 1 ≤ rng k ∧ rng k ≤ slay_table.length - 1) (n k : Nat) :
    random_slay slay_table mask rng n k = pick.looping := by
  induction n generalizing k with
  | zero => rfl
  | succ n ih =>
    unfold random_slay
    have hlt : rng k < slay_table.length := by
      have := hr k
      omega
    rw [List.getElem?_eq_getElem hlt]
    simp only
    rw [hm (rng k) _ (hr k).1 (List.getElem?_eq_getElem hlt)]
    simpa using ih (k + 1)

/-- C17, refuted at the orc table with the empty mask: no row is eligible, and
whatever the number of draws allowed, with the generator always answering 1,
`random_slay` has not returned. -/
theorem random_slay_empty_mask_loops :
    (∀ s ∈ orc_table, flag_has 0 s.object_flag = false) ∧
    (∀ n, random_slay orc_table 0 (fun _ => 1) n 0 = pick.looping) :=
  ⟨by decide, fun n => random_slay_spins orc_table 0 (fun _ => 1)
    (fun _ _ _ _ => flag_has_empty _) (fun _ => (by decide : (1 : Nat) ≤ 1 ∧ 1 ≤ orc_table.length - 1)) n 0⟩

/-- C17 as amended: for a mask in which no row of index 1 and up has its object
flag set, and every sequence of generator results in `1 .. SL_MAX - 1`,
`random_slay` rejects every draw: after any number of draws it is still in its
loop, and it has no outcome other than a table row. -/
theorem random_slay_no_eligible (slay_table : List slay) (mask : bitflag) (rng : Nat → Nat)
    (hm : ∀ (i : Nat) (s : slay), 1 ≤ i → slay_table[i]? = some s →
      flag_has mask s.object_flag = false)
    (hr : ∀ k, 1 ≤ rng k ∧ rng k ≤ slay_table.length - 1) :
    ∀ n, random_slay slay_table mask rng n 0 = pick.looping :=
  fun n => random_slay_spins slay_table mask rng hm hr n 0

/-- C17 as amended, at the orc table with the empty mask. -/
theorem random_slay_no_eligible_witness :
    (∀ (i : Nat) (s : slay), 1 ≤ i → orc_table[i]? = some s →
      flag_has 0 s.object_flag = false) ∧
    (∀ k, 1 ≤ (fun _ : Nat => 1) k ∧ (fun _ : Nat => 1) k ≤ orc_table.length - 1) ∧
    (∀ n, random_slay orc_table 0 (fun _ => 1) n 0 = pick.looping) :=
  ⟨fun _ _ _ _ => by simp [flag_has],
    fun _ => (by decide : (1 : Nat) ≤ 1 ∧ 1 ≤ orc_table.length - 1),
    random_slay_no_eligible orc_table 0 (fun _ => 1)
      (fun _ _ _ _ => by simp [flag_has])
      (fun _ => (by decide : (1 : Nat) ≤ 1 ∧ 1 ≤ orc_table.length - 1))⟩

theorem random_slay_returned (slay_table : List slay) (mask : bitflag) (rng : Nat → Nat)
    (hr : ∀ k, 1 ≤ rng k ∧ rng k ≤ slay_table.length - 1) (n k i : Nat) (s : slay)
    (h : random_slay slay_table mask rng n k = pick.returned i s) :
    1 ≤ i ∧ i ≤ slay_table.length - 1 ∧ slay_table[i]? = some s ∧
      flag_has mask s.object_flag = true := by
  induction n generalizing k with
  | zero => cases h
  | succ n ih =>
    unfold random_slay at h
    cases ht : slay_table[rng k]? with
    | none => rw [ht] at h; cases h
    | some t =>
      rw [ht] at h
      simp only at h
      by_cases hf : flag_has mask t.object_flag = true
      · rw [hf] at h
        simp only [Bool.not_true, Bool.false_eq_true, if_false, pick.returned.injEq] at h
        obtain ⟨h1, h2⟩ := h
        subst h1 h2
        exact ⟨(hr k).1, (hr k).2, ht, hf⟩
      · have hf' : flag_has mask t.object_flag = false := by simpa using hf
        rw [hf'] at h
        simp only [Bool.not_false, if_true] at h
        exact ih (k + 1) h

theorem random_slay_returns (slay_table : List slay) (mask : bitflag) (rng : Nat → Nat)
    (hr : ∀ k, 1 ≤ rng k ∧ rng k ≤ slay_table.length - 1) (n j k : Nat)
    (hjk : j ≤ k) (hkn : k < j + n)
    (he : ∃ s, slay_table[rng k]? = some s ∧ flag_has mask s.object_flag = true) :
    ∃ i s, random_slay slay_table mask rng n j = pick.returned i s := by
  induction n generalizing j with
  | zero => omega
  | succ n ih =>
    unfold random_slay
    have hlt : rng j < slay_table.length := by
      have := hr j
      omega
    rw [List.getElem?_eq_getElem hlt]
    simp only
    by_cases hf : flag_has mask (slay_table[rng j]).object_flag = true
    · rw [hf]
      exact ⟨rng j, slay_table[rng j], by simp⟩
    · have hf' : flag_has mask (slay_table[rng j]).object_flag = false := by simpa using hf
      rw [hf']
      simp only [Bool.not_false, if_true]
      have hne : j ≠ k := by
        rintro rfl
        obtain ⟨s, hs, hfs⟩ := he
        rw [List.getElem?_eq_getElem hlt] at hs
        cases hs
        rw [hf'] at hfs
        cases hfs
      exact ih (j + 1) (by omega) (by omega)

/-- C18: with every generator result in `1 .. SL_MAX - 1`, whenever
`random_slay` returns, the entry returned is the table row of an index in
`1 .. SL_MAX - 1`, so never the null row 0, and its object flag is set in
`mask`; and it does return, within `k + 1` draws, when draw number `k` names a
row whose object flag is set in `mask`. -/
theorem random_slay_in_mask (slay_table : List slay) (mask : bitflag) (rng : Nat → Nat)
    (hr : ∀ k, 1 ≤ rng k ∧ rng k ≤ slay_table.length - 1) :
    (∀ (n i : Nat) (s : slay), random_slay slay_table mask rng n 0 = pick.returned i s →
      1 ≤ i ∧ i ≤ slay_table.length - 1 ∧ slay_table[i]? = some s ∧
        flag_has mask s.object_flag = true) ∧
    (∀ k, (∃ s, slay_table[rng k]? = some s ∧ flag_has mask s.object_flag = true) →
      ∃ i s, random_slay slay_table mask rng (k + 1) 0 = pick.returned i s) :=
  ⟨fun n i s h => random_slay_returned slay_table mask rng hr n 0 i s h,
    fun k he => random_slay_returns slay_table mask rng hr (k + 1) 0 k (Nat.zero_le k)
      (by omega) he⟩

/-- C18, at the orc table with both orc bits in the mask and the generator
always answering 2. -/
theorem random_slay_in_mask_witness :
    (∀ k, 1 ≤ (fun _ : Nat => 2) k ∧ (fun _ : Nat => 2) k ≤ orc_table.length - 1) ∧
    ((∀ (n i : Nat) (s : slay), random_slay orc_table 3 (fun _ => 2) n 0 = pick.returned i s →
      1 ≤ i ∧ i ≤ orc_table.length - 1 ∧ orc_table[i]? = some s ∧
        flag_has 3 s.object_flag = true) ∧
    (∀ k, (∃ s, orc_table[(fun _ : Nat => 2) k]? = some s ∧
        flag_has 3 s.object_flag = true) →
      ∃ i s, random_slay orc_table 3 (fun _ => 2) (k + 1) 0 = pick.returned i s)) :=
  ⟨fun _ => (by decide : (1 : Nat) ≤ 2 ∧ 2 ≤ orc_table.length - 1),
    random_slay_in_mask orc_table 3 (fun _ => 2)
      (fun _ => (by decide : (1 : Nat) ≤ 2 ∧ 2 ≤ orc_table.length - 1))⟩

/-! ## The slay cache: what `create_slay_cache` builds -/

theorem flag_is_empty_iff (a : bitflag) : flag_is_empty a = true ↔ a = 0 := by
  simp [flag_is_empty]

theorem skip_scanned_eq (cacheme : bitflag) (dupcheck : List bitflag) (i count : Nat) :
    skip_scanned cacheme dupcheck i count = count := by
  unfold skip_scanned
  induction List.range i generalizing count with
  | nil => rfl
  | cons j l ih =>
    simp only [List.foldl_cons, ite_self] at ih ⊢
    exact ih count

theorem scan_egos_eq (slay_mask : bitflag) (items : List ego_item)
    (st : Nat × List bitflag) :
    scan_egos slay_mask items st =
      (st.1 + ((items.map (fun e => flag_inter e.flags slay_mask)).filter
          (fun c => !flag_is_empty c)).length,
       st.2 ++ items.map (fun e => flag_inter e.flags slay_mask)) := by
  induction items generalizing st with
  | nil => simp [scan_egos]
  | cons e rest ih =>
    unfold scan_egos
    simp only
    by_cases he : flag_is_empty (flag_inter e.flags slay_mask) = true
    · rw [if_neg (by simp [he]), ih]
      have h0 : flag_inter e.flags slay_mask = 0 := (flag_is_empty_iff _).1 he
      have h1 : flag_is_empty 0 = true := by rw [← h0]; exact he
      simp [List.filter_cons, h0, h1]
    · have he' : flag_is_empty (flag_inter e.flags slay_mask) = false := by simpa using he
      rw [if_pos (by simp [he']), ih, skip_scanned_eq]
      simp [List.filter_cons, he']
      omega

theorem set_at_length {α : Type} (pre : List α) (a b : α) (tl : List α) :
    (pre ++ a :: tl).set pre.length b = pre ++ b :: tl := by
  induction pre with
  | nil => rfl
  | cons x xs ih => simp [ih]

theorem populate_cache_eq (ds : List bitflag) (pre : List flag_cache) (m : Nat)
    (h : (ds.filter (fun c => !flag_is_empty c)).length ≤ m) :
    populate_cache ds (pre ++ List.replicate (m + 1) ⟨0, 0⟩, pre.length) =
      (pre ++ (ds.filter (fun c => !flag_is_empty c)).map (fun c => (⟨c, 0⟩ : flag_cache)) ++
          List.replicate (m + 1 - (ds.filter (fun c => !flag_is_empty c)).length) ⟨0, 0⟩,
       pre.length + (ds.filter (fun c => !flag_is_empty c)).length) := by
  induction ds generalizing pre m with
  | nil => simp [populate_cache]
  | cons d ds ih =>
    unfold populate_cache
    by_cases hd : flag_is_empty d = true
    · have hf : (List.filter (fun c => !flag_is_empty c) (d :: ds)) =
          List.filter (fun c => !flag_is_empty c) ds := by
        simp [List.filter_cons, hd]
      rw [hf] at h ⊢
      rw [if_neg (by simp [hd])]
      exact ih pre m h
    · have hd' : flag_is_empty d = false := by simpa using hd
      have hf : (List.filter (fun c => !flag_is_empty c) (d :: ds)) =
          d :: List.filter (fun c => !flag_is_empty c) ds := by
        simp [List.filter_cons, hd']
      rw [hf] at h ⊢
      rw [if_pos (by simp [hd'])]
      simp only [List.length_cons] at h ⊢
      obtain ⟨m', rfl⟩ : ∃ m', m = m' + 1 := ⟨m - 1, by omega⟩
      have hset : (pre ++ List.replicate (m' + 1 + 1) (⟨0, 0⟩ : flag_cache)).set pre.length
          ⟨d, 0⟩ = (pre ++ [⟨d, 0⟩]) ++ List.replicate (m' + 1) ⟨0, 0⟩ := by
        rw [List.replicate_succ, set_at_length]
        simp
      rw [hset]
      have hlen : pre.length + 1 = (pre ++ [(⟨d, 0⟩ : flag_cache)]).length := by simp
      rw [hlen, ih (pre ++ [(⟨d, 0⟩ : flag_cache)]) m' (by omega)]
      have e1 : m' + 1 + 1 - ((List.filter (fun c => !flag_is_empty c) ds).length + 1) =
          m' + 1 - (List.filter (fun c => !flag_is_empty c) ds).length := by omega
      rw [e1]
      simp [Nat.add_assoc, Nat.add_comm]

/-- The array `create_slay_cache` leaves: one entry of value 0 for every
template with a non-empty slay combination, in template order, then the empty
sentinel. -/
theorem create_slay_cache_eq (slay_mask : bitflag) (items : List ego_item) :
    create_slay_cache slay_mask items =
      ((items.map (fun e => flag_inter e.flags slay_mask)).filter
        (fun c => !flag_is_empty c)).map (fun c => (⟨c, 0⟩ : flag_cache)) ++ [⟨0, 0⟩] := by
  unfold create_slay_cache
  simp only
  rw [scan_egos_eq]
  simp only [Nat.zero_add, List.nil_append]
  have h := populate_cache_eq (items.map (fun e => flag_inter e.flags slay_mask)) []
    ((items.map (fun e => flag_inter e.flags slay_mask)).filter
      (fun c => !flag_is_empty c)).length (le_refl _)
  simp only [List.nil_append, List.length_nil] at h
  rw [h]
  simp

/-! ## The slay cache: lookups and fills on a well-formed array -/

theorem flag_is_empty_false {a : bitflag} (h : a ≠ 0) : flag_is_empty a = false := by
  simp [flag_is_empty, h]

theorem flag_is_equal_iff (a b : bitflag) : flag_is_equal a b = true ↔ a = b := by
  simp [flag_is_equal]

theorem check_slay_cache_total (c : bitflag) (entries : List flag_cache) :
    ∃ v, check_slay_cache c (entries ++ [⟨0, 0⟩]) = some v := by
  induction entries with
  | nil => exact ⟨0, by simp [check_slay_cache, flag_is_empty]⟩
  | cons e es ih =>
    rw [List.cons_append]
    unfold check_slay_cache
    split
    · split
      · exact ⟨_, rfl⟩
      · exact ih
    · exact ⟨_, rfl⟩

theorem check_slay_cache_miss (c : bitflag) (entries : List flag_cache)
    (hw : ∀ e ∈ entries, e.flags ≠ 0) (hc : ∀ e ∈ entries, e.flags ≠ c) :
    check_slay_cache c (entries ++ [⟨0, 0⟩]) = some 0 := by
  induction entries with
  | nil => simp [check_slay_cache, flag_is_empty]
  | cons e es ih =>
    rw [List.cons_append]
    unfold check_slay_cache
    have h1 : flag_is_empty e.flags = false :=
      flag_is_empty_false (hw e (List.mem_cons_self _ _))
    have h2 : flag_is_equal c e.flags = false := by
      cases h : flag_is_equal c e.flags with
      | false => rfl
      | true => exact absurd ((flag_is_equal_iff _ _).1 h).symm (hc e (List.mem_cons_self _ _))
    simp only [h1, h2, Bool.not_false, if_true, Bool.false_eq_true, if_false]
    exact ih (fun x hx => hw x (List.mem_cons_of_mem _ hx))
      (fun x hx => hc x (List.mem_cons_of_mem _ hx))

/-- A fill on a well-formed array: it always completes, keeps the flag sets and
the sentinel, reports TRUE with the value readable afterwards when the
combination is stored, and reports FALSE with nothing changed otherwise. -/
theorem fill_slay_cache_wf (c : bitflag) (v : Int) (entries : List flag_cache)
    (hw : ∀ e ∈ entries, e.flags ≠ 0) :
    ∃ (ok : Bool) (entries1 : List flag_cache),
      fill_slay_cache c v (entries ++ [⟨0, 0⟩]) = some (ok, entries1 ++ [⟨0, 0⟩]) ∧
      entries1.map (fun e => e.flags) = entries.map (fun e => e.flags) ∧
      ((∃ e ∈ entries, e.flags = c) →
        ok = true ∧ check_slay_cache c (entries1 ++ [⟨0, 0⟩]) = some v) ∧
      ((∀ e ∈ entries, e.flags ≠ c) → ok = false ∧ entries1 = entries) := by
  induction entries with
  | nil =>
    refine ⟨false, [], by simp [fill_slay_cache, flag_is_empty], rfl, ?_, fun _ => ⟨rfl, rfl⟩⟩
    rintro ⟨e, he, _⟩
    cases he
  | cons e es ih =>
    have h1 : flag_is_empty e.flags = false :=
      flag_is_empty_false (hw e (List.mem_cons_self _ _))
    by_cases h2 : c = e.flags
    · have h2' : flag_is_equal c e.flags = true := (flag_is_equal_iff _ _).2 h2
      refine ⟨true, { e with value := v } :: es, ?_, by simp, ?_, ?_⟩
      · rw [List.cons_append]
        unfold fill_slay_cache
        simp [h1, h2']
      · intro _
        refine ⟨rfl, ?_⟩
        rw [List.cons_append]
        unfold check_slay_cache
        simp [h1, h2']
      · intro hc
        exact absurd h2.symm (hc e (List.mem_cons_self _ _))
    · have h2' : flag_is_equal c e.flags = false := by
        cases h : flag_is_equal c e.flags with
        | false => rfl
        | true => exact absurd ((flag_is_equal_iff _ _).1 h) h2
      obtain ⟨ok, es1, hf, hm, hyes, hno⟩ := ih (fun x hx => hw x (List.mem_cons_of_mem _ hx))
      refine ⟨ok, e :: es1, ?_, by simp [hm], ?_, ?_⟩
      · rw [List.cons_append]
        unfold fill_slay_cache
        simp [h1, h2', hf]
      · rintro ⟨x, hx, hxc⟩
        rcases List.mem_cons.1 hx with rfl | hx
        · exact absurd hxc.symm h2
        · obtain ⟨hok, hck⟩ := hyes ⟨x, hx, hxc⟩
          refine ⟨hok, ?_⟩
          rw [List.cons_append]
          unfold check_slay_cache
          simp [h1, h2', hck]
      · intro hc
        obtain ⟨hok, hes⟩ := hno (fun x hx => hc x (List.mem_cons_of_mem _ hx))
        exact ⟨hok, by rw [hes]⟩

/-- Every reached cache is a run of entries with non-empty flag sets followed
by the empty sentinel of value 0. -/
theorem cache_reached_wf (slay_mask : bitflag) (items : List ego_item)
    (cache : List flag_cache) (h : cache_reached slay_mask items cache) :
    ∃ entries, cache = entries ++ [⟨0, 0⟩] ∧ ∀ e ∈ entries, e.flags ≠ 0 := by
  induction h with
  | created =>
    refine ⟨_, create_slay_cache_eq slay_mask items, ?_⟩
    intro e he
    obtain ⟨c, hc, rfl⟩ := List.mem_map.1 he
    have := (List.mem_filter.1 hc).2
    intro h0
    have h0' : c = 0 := h0
    rw [h0'] at this
    simp [flag_is_empty] at this
  | filled cache cache1 index value ok _ hfill ih =>
    obtain ⟨entries, rfl, hw⟩ := ih
    obtain ⟨ok1, entries1, hf, hm, _, _⟩ := fill_slay_cache_wf index value entries hw
    rw [hf] at hfill
    simp only [Option.some.injEq, Prod.mk.injEq] at hfill
    refine ⟨entries1, hfill.2.symm, ?_⟩
    intro e he
    have : e.flags ∈ entries1.map (fun e => e.flags) := List.mem_map.2 ⟨e, he, rfl⟩
    rw [hm] at this
    obtain ⟨x, hx, hxe⟩ := List.mem_map.1 this
    have hxe' : x.flags = e.flags := hxe
    rw [← hxe']
    exact hw x hx

/-! ## Claims on the slay cache -/

/-- C12, the code at the failing input: for two templates carrying the same
slay flag `create_slay_cache` stores two entries with equal flag sets before
the sentinel, while there is one distinct non-empty combination. -/
theorem create_slay_cache_keeps_duplicates :
    create_slay_cache 3 twin_egos = [⟨1, 0⟩, ⟨1, 0⟩, ⟨0, 0⟩] ∧
    ((twin_egos.map (fun e => flag_inter e.flags 3)).filter
      (fun c => !flag_is_empty c)).dedup.length = 1 := by
  decide

/-- C13: in every cache state reached by `create_slay_cache` followed by any
sequence of `fill_slay_cache` calls, for a flag set `c` equal to the flags of an
entry before the sentinel and any value `v`, `fill_slay_cache(c, v)` returns
TRUE and `check_slay_cache(c)` on the array it leaves returns `v`. -/
theorem fill_then_check (slay_mask : bitflag) (items : List ego_item)
    (cache : List flag_cache) (h : cache_reached slay_mask items cache)
    (c : bitflag) (v : Int) (hc : ∃ e ∈ cache.dropLast, e.flags = c) :
    ∃ cache1, fill_slay_cache c v cache = some (true, cache1) ∧
      check_slay_cache c cache1 = some v := by
  obtain ⟨entries, rfl, hw⟩ := cache_reached_wf slay_mask items cache h
  rw [List.dropLast_concat] at hc
  obtain ⟨ok, entries1, hf, _, hyes, _⟩ := fill_slay_cache_wf c v entries hw
  obtain ⟨hok, hck⟩ := hyes hc
  rw [hok] at hf
  exact ⟨_, hf, hck⟩

/-- C13, at the cache built from the three templates, filling the second
stored combination with 9. -/
theorem fill_then_check_witness :
    cache_reached 3 three_egos (create_slay_cache 3 three_egos) ∧
    (∃ e ∈ (create_slay_cache 3 three_egos).dropLast, e.flags = 2) ∧
    (∃ cache1, fill_slay_cache 2 9 (create_slay_cache 3 three_egos) = some (true, cache1) ∧
      check_slay_cache 2 cache1 = some 9) :=
  ⟨cache_reached.created, by decide,
    fill_then_check 3 three_egos _ cache_reached.created 2 9 (by decide)⟩

/-- C14: in every reached cache state, for a flag set `c` equal to the flags of
no entry before the sentinel (the empty flag set is one) and any value `v`,
`fill_slay_cache(c, v)` returns FALSE and leaves the whole array, sentinel
included, as it was. -/
theorem fill_absent_fails (slay_mask : bitflag) (items : List ego_item)
    (cache : List flag_cache) (h : cache_reached slay_mask items cache)
    (c : bitflag) (v : Int) (hc : ∀ e ∈ cache.dropLast, e.flags ≠ c) :
    fill_slay_cache c v cache = some (false, cache) := by
  obtain ⟨entries, rfl, hw⟩ := cache_reached_wf slay_mask items cache h
  rw [List.dropLast_concat] at hc
  obtain ⟨ok, entries1, hf, _, _, hno⟩ := fill_slay_cache_wf c v entries hw
  obtain ⟨hok, hes⟩ := hno hc
  rw [hok, hes] at hf
  exact hf

/-- C14, at the cache built from the three templates, filling the empty flag
set. -/
theorem fill_absent_fails_witness :
    cache_reached 3 three_egos (create_slay_cache 3 three_egos) ∧
    (∀ e ∈ (create_slay_cache 3 three_egos).dropLast, e.flags ≠ 0) ∧
    fill_slay_cache 0 9 (create_slay_cache 3 three_egos) =
      some (false, create_slay_cache 3 three_egos) :=
  ⟨cache_reached.created, by decide,
    fill_absent_fails 3 three_egos _ cache_reached.created 0 9 (by decide)⟩

/-- C20: in every reached cache state the entries before the sentinel have
non-empty flag sets and the last entry is the sentinel with an empty flag set
and value 0; so `check_slay_cache` always stops inside the array, and it
returns 0 for every query equal to the flags of no entry before the sentinel,
the empty flag set included. -/
theorem cache_sentinel_kept (slay_mask : bitflag) (items : List ego_item)
    (cache : List flag_cache) (h : cache_reached slay_mask items cache) :
    (∀ e ∈ cache.dropLast, flag_is_empty e.flags = false) ∧
    cache.getLast? = some ⟨0, 0⟩ ∧
    (∀ c, ∃ v, check_slay_cache c cache = some v) ∧
    (∀ c, (∀ e ∈ cache.dropLast, e.flags ≠ c) → check_slay_cache c cache = some 0) ∧
    check_slay_cache 0 cache = some 0 := by
  obtain ⟨entries, rfl, hw⟩ := cache_reached_wf slay_mask items cache h
  rw [List.dropLast_concat]
  refine ⟨fun e he => flag_is_empty_false (hw e he), by simp,
    fun c => check_slay_cache_total c entries,
    fun c hc => check_slay_cache_miss c entries hw hc,
    check_slay_cache_miss 0 entries hw hw⟩

/-- C20, at the cache built from the three templates after one fill. -/
theorem cache_sentinel_kept_witness :
    cache_reached 3 three_egos [⟨1, 0⟩, ⟨2, 9⟩, ⟨0, 0⟩] ∧
    ((∀ e ∈ ([⟨1, 0⟩, ⟨2, 9⟩, ⟨0, 0⟩] : List flag_cache).dropLast,
        flag_is_empty e.flags = false) ∧
    ([⟨1, 0⟩, ⟨2, 9⟩, ⟨0, 0⟩] : List flag_cache).getLast? = some ⟨0, 0⟩ ∧
    (∀ c, ∃ v, check_slay_cache c [⟨1, 0⟩, ⟨2, 9⟩, ⟨0, 0⟩] = some v) ∧
    (∀ c, (∀ e ∈ ([⟨1, 0⟩, ⟨2, 9⟩, ⟨0, 0⟩] : List flag_cache).dropLast, e.flags ≠ c) →
      check_slay_cache c [⟨1, 0⟩, ⟨2, 9⟩, ⟨0, 0⟩] = some 0) ∧
    check_slay_cache 0 [⟨1, 0⟩, ⟨2, 9⟩, ⟨0, 0⟩] = some 0) :=
  ⟨cache_reached.filled (create_slay_cache 3 three_egos) _ 2 9 true cache_reached.created
      (by decide),
    cache_sentinel_kept 3 three_egos _
      (cache_reached.filled (create_slay_cache 3 three_egos) _ 2 9 true cache_reached.created
        (by decide))⟩

/-! ## Arrays written front to back -/

theorem write_from_nil {α : Type} (a : Nat → α) (c : Nat) : write_from a c [] = a := by
  funext k
  simp [write_from]

theorem write_from_cons {α : Type} (a : Nat → α) (c : Nat) (x : α) (vs : List α) :
    write_from (Function.update a c x) (c + 1) vs = write_from a c (x :: vs) := by
  funext k
  unfold write_from
  by_cases h1 : c + 1 ≤ k
  · have h2 : c ≤ k := by omega
    have h3 : k ≠ c := by omega
    obtain ⟨d, hd⟩ : ∃ d, k - c = d + 1 := ⟨k - c - 1, by omega⟩
    have h4 : k - (c + 1) = d := by omega
    rw [if_pos h1, if_pos h2, hd, h4, List.getD_cons_succ, Function.update_noteq h3]
  · rw [if_neg h1]
    by_cases h2 : c ≤ k
    · have h3 : k = c := by omega
      subst h3
      simp
    · have h3 : k ≠ c := by omega
      rw [if_neg h2, Function.update_noteq h3]

theorem write_from_beyond {α : Type} (a : Nat → α) (c : Nat) (vs : List α) (k : Nat)
    (h : c + vs.length ≤ k) : write_from a c vs k = a k := by
  unfold write_from
  split
  · rw [List.getD_eq_getElem?_getD, List.getElem?_eq_none (by omega)]
    rfl
  · rfl

theorem write_from_at {α : Type} (a : Nat → α) (c : Nat) (vs : List α) (j : Nat)
    (h : j < vs.length) : write_from a c vs (c + j) = vs[j] := by
  unfold write_from
  rw [if_pos (Nat.le_add_right c j), Nat.add_sub_cancel_left, List.getD_eq_getElem?_getD,
    List.getElem?_eq_getElem h]
  rfl

theorem written_write_from {α : Type} (a : Nat → α) (vs : List α) :
    written (write_from a 0 vs) vs.length = vs := by
  apply List.ext_getElem
  · simp [written]
  · intro n h1 h2
    simp only [written, List.getElem_map, List.getElem_range]
    have := write_from_at a 0 vs n h2
    rw [Nat.zero_add] at this
    exact this

/-! ## `list_slays` -/

theorem present_ids_cons (s : slay) (rest : List slay) (g : bitflag) :
    present_ids (s :: rest) g =
      (if flag_has g s.object_flag then [0] else []) ++
        (present_ids rest g).map (fun j => j + 1) := by
  unfold present_ids
  rw [List.length_cons, List.range_succ_eq_map, List.filter_cons]
  simp only [List.getElem?_cons_zero]
  rw [List.filter_map]
  have hfun : ((fun i => match (s :: rest)[i]? with
        | some s => flag_has g s.object_flag
        | none => false) ∘ Nat.succ) =
      (fun i => match rest[i]? with
        | some s => flag_has g s.object_flag
        | none => false) := by
    funext i
    simp [Function.comp]
  rw [hfun]
  split <;> rfl

/-- The collecting loop stores the indices of the present rows front to back
and counts them. -/
theorem list_slays_collect_eq (f : bitflag) (l : List slay) (i : Nat)
    (slays : Option (Nat → Nat)) (c : Nat) :
    list_slays_collect f l i (slays, c) =
      (slays.map (fun a => write_from a c ((present_ids l f).map (fun j => j + i))),
       c + (present_ids l f).length) := by
  induction l generalizing i slays c with
  | nil =>
    cases slays <;> simp [list_slays_collect, present_ids, write_from_nil]
  | cons s rest ih =>
    unfold list_slays_collect
    rw [present_ids_cons]
    by_cases h : flag_has f s.object_flag = true
    · rw [if_pos h, if_pos h, ih]
      have hmap : List.map (fun j => j + i) ([0] ++ List.map (fun j => j + 1) (present_ids rest f))
          = i :: List.map (fun j => j + (i + 1)) (present_ids rest f) := by
        simp only [List.singleton_append, List.map_cons, Nat.zero_add, List.map_map,
          List.cons.injEq, true_and]
        apply List.map_congr_left
        intro j _
        simp only [Function.comp]
        omega
      rw [hmap]
      cases slays with
      | none => simp; omega
      | some a =>
        simp only [Option.map_some', List.length_append, List.length_singleton,
          List.length_map, Prod.mk.injEq, Option.some.injEq]
        exact ⟨write_from_cons a c i _, by omega⟩
    · rw [if_neg h, if_neg h, ih]
      have hmap : List.map (fun j => j + i) ([] ++ List.map (fun j => j + 1) (present_ids rest f))
          = List.map (fun j => j + (i + 1)) (present_ids rest f) := by
        simp only [List.nil_append, List.map_map]
        apply List.map_congr_left
        intro j _
        simp only [Function.comp]
        omega
      rw [hmap]
      simp

theorem present_ids_sorted (slay_table : List slay) (g : bitflag) :
    (present_ids slay_table g).Pairwise (fun i j => i < j) :=
  (List.pairwise_lt_range slay_table.length).sublist (List.filter_sublist _)

theorem mem_present_ids (slay_table : List slay) (g : bitflag) (i : Nat) :
    i ∈ present_ids slay_table g ↔
      ∃ s, slay_table[i]? = some s ∧ flag_has g s.object_flag = true := by
  unfold present_ids
  rw [List.mem_filter, List.mem_range]
  constructor
  · rintro ⟨_, h⟩
    cases hs : slay_table[i]? with
    | none => rw [hs] at h; cases h
    | some s => rw [hs] at h; exact ⟨s, rfl, h⟩
  · rintro ⟨s, hs, hf⟩
    refine ⟨?_, by rw [hs]; exact hf⟩
    by_contra hge
    rw [List.getElem?_eq_none (Nat.le_of_not_lt hge)] at hs
    cases hs

theorem present_ids_mono (slay_table : List slay) (g1 g2 : bitflag)
    (h : ∀ k, flag_has g1 k = true → flag_has g2 k = true) :
    (present_ids slay_table g1).Sublist (present_ids slay_table g2) := by
  unfold present_ids
  apply List.monotone_filter_right
  intro i hi
  cases hs : slay_table[i]? with
  | none => rw [hs] at hi; cases hi
  | some s =>
    rw [hs] at hi
    exact h _ hi

/-- C15: with `G` the flag set `flags ∩ mask` when `dedup` is false and the
result of `dedup_slays` on `flags ∩ mask` when `dedup` is true, `list_slays`
leaves in the first `count` entries of `slays[]` the table indices whose object
flag is set in `G`, in strictly ascending order, leaves the rest of the array
alone, and returns their number (also when `slays` is null); the list for
`dedup` true is a sub-list of the list for `dedup` false; the caller's `flags`
come back as they were. -/
theorem list_slays_enumerates (slay_table : List slay) (flags mask : bitflag)
    (a : Nat → Nat) (dedup : Bool) :
    (∃ a1, (list_slays slay_table flags mask (some a) dedup).slays = some a1 ∧
      written a1 (list_slays slay_table flags mask (some a) dedup).count =
        present_ids slay_table
          (if dedup then (dedup_slays slay_table (flag_inter flags mask)).1
            else flag_inter flags mask) ∧
      (∀ k, (list_slays slay_table flags mask (some a) dedup).count ≤ k → a1 k = a k)) ∧
    (list_slays slay_table flags mask (some a) dedup).count =
      (present_ids slay_table
        (if dedup then (dedup_slays slay_table (flag_inter flags mask)).1
          else flag_inter flags mask)).length ∧
    (list_slays slay_table flags mask none dedup).count =
      (list_slays slay_table flags mask (some a) dedup).count ∧
    (list_slays slay_table flags mask none dedup).slays = none ∧
    (list_slays slay_table flags mask (some a) dedup).flags = flags ∧
    (∀ g, (present_ids slay_table g).Pairwise (fun i j => i < j) ∧
      ∀ i, i ∈ present_ids slay_table g ↔
        ∃ s, slay_table[i]? = some s ∧ flag_has g s.object_flag = true) ∧
    (present_ids slay_table (dedup_slays slay_table (flag_inter flags mask)).1).Sublist
      (present_ids slay_table (flag_inter flags mask)) := by
  have hG : list_slays_f slay_table flags mask dedup =
      (if dedup then (dedup_slays slay_table (flag_inter flags mask)).1
        else flag_inter flags mask) := by
    unfold list_slays_f
    cases dedup <;> rfl
  have h1 := list_slays_collect_eq (list_slays_f slay_table flags mask dedup) slay_table 0
    (some a) 0
  have h2 := list_slays_collect_eq (list_slays_f slay_table flags mask dedup) slay_table 0
    none 0
  have hmap : List.map (fun j => j + 0)
      (present_ids slay_table (list_slays_f slay_table flags mask dedup)) =
      present_ids slay_table (list_slays_f slay_table flags mask dedup) := by
    simp
  rw [hmap] at h1 h2
  simp only [Nat.zero_add, Option.map_some', Option.map_none'] at h1 h2
  unfold list_slays
  simp only
  rw [h1, h2]
  simp only
  rw [hG]
  refine ⟨⟨_, rfl, written_write_from a _, ?_⟩, rfl, trivial, trivial, trivial, ?_, ?_⟩
  · intro k hk
    exact write_from_beyond a 0 _ k (by omega)
  · exact fun g => ⟨present_ids_sorted slay_table g, mem_present_ids slay_table g⟩
  · exact present_ids_mono slay_table _ _
      (fun k hk => dedup_outer_subset slay_table (flag_inter flags mask, 0) k hk)

/-! ## `slay_info_collect` -/

theorem rows_named_cons_zero (slay_table : List slay) (ids : List Nat) :
    rows_named slay_table (0 :: ids) = rows_named slay_table ids := by
  simp [rows_named]

theorem rows_named_cons (slay_table : List slay) (id : Nat) (ids : List Nat) (s : slay)
    (h0 : id ≠ 0) (hs : slay_table[id]? = some s) :
    rows_named slay_table (id :: ids) = s :: rows_named slay_table ids := by
  simp [rows_named, List.filter_cons, h0, hs]

/-- Over valid ids the loop completes, having stored the three fields of the
named rows front to back from `count` on. -/
theorem slay_info_loop_eq (slay_table : List slay) (ids : List Nat) (st : slay_info)
    (hv : ∀ id ∈ ids, id < slay_table.length) :
    slay_info_loop slay_table ids st =
      some { desc := st.desc.map (fun a =>
               write_from a st.count ((rows_named slay_table ids).map (fun s => s.desc))),
             brand := st.brand.map (fun a =>
               write_from a st.count ((rows_named slay_table ids).map (fun s => s.brand))),
             mult := st.mult.map (fun a =>
               write_from a st.count ((rows_named slay_table ids).map (fun s => s.mult))),
             count := st.count + (rows_named slay_table ids).length } := by
  induction ids generalizing st with
  | nil =>
    cases st with
    | mk d b m c =>
      cases d <;> cases b <;> cases m <;>
        simp [slay_info_loop, rows_named, write_from_nil]
  | cons id ids ih =>
    have hv' : ∀ x ∈ ids, x < slay_table.length := fun x hx => hv x (List.mem_cons_of_mem _ hx)
    unfold slay_info_loop
    by_cases h0 : id = 0
    · subst h0
      rw [if_neg (by simp), ih st hv', rows_named_cons_zero]
    · have hlt : id < slay_table.length := hv id (List.mem_cons_self _ _)
      have hs : slay_table[id]? = some slay_table[id] := List.getElem?_eq_getElem hlt
      rw [if_pos (by simp [h0]), hs]
      simp only
      rw [ih _ hv', rows_named_cons slay_table id ids _ h0 hs]
      cases st with
      | mk d b m c =>
        cases d <;> cases b <;> cases m <;> simp [write_from_cons] <;> omega

theorem rows_named_length (slay_table : List slay) (ids : List Nat)
    (hv : ∀ id ∈ ids, id < slay_table.length) :
    (rows_named slay_table ids).length = (ids.filter (fun id => id != 0)).length := by
  induction ids with
  | nil => rfl
  | cons id ids ih =>
    have hv' : ∀ x ∈ ids, x < slay_table.length := fun x hx => hv x (List.mem_cons_of_mem _ hx)
    by_cases h0 : id = 0
    · subst h0
      rw [rows_named_cons_zero, ih hv']
      simp
    · have hlt : id < slay_table.length := hv id (List.mem_cons_self _ _)
      rw [rows_named_cons slay_table id ids _ h0 (List.getElem?_eq_getElem hlt), List.length_cons,
        ih hv']
      simp [List.filter_cons, h0]

theorem rows_named_get (slay_table : List slay) (ids : List Nat)
    (hv : ∀ id ∈ ids, id < slay_table.length) (k : Nat)
    (hk : k < (ids.filter (fun id => id != 0)).length) :
    slay_table[(ids.filter (fun id => id != 0))[k]]? = (rows_named slay_table ids)[k]? := by
  induction ids generalizing k with
  | nil => simp at hk
  | cons id ids ih =>
    have hv' : ∀ x ∈ ids, x < slay_table.length := fun x hx => hv x (List.mem_cons_of_mem _ hx)
    by_cases h0 : id = 0
    · subst h0
      have hf : List.filter (fun id => id != 0) (0 :: ids) =
          List.filter (fun id => id != 0) ids := by simp
      rw [rows_named_cons_zero]
      simp only [hf] at hk ⊢
      exact ih hv' k hk
    · have hlt : id < slay_table.length := hv id (List.mem_cons_self _ _)
      have hf : List.filter (fun id => id != 0) (id :: ids) =
          id :: List.filter (fun id => id != 0) ids := by simp [List.filter_cons, h0]
      rw [rows_named_cons slay_table id ids _ h0 (List.getElem?_eq_getElem hlt)]
      simp only [hf] at hk ⊢
      cases k with
      | zero => simp [List.getElem?_eq_getElem hlt]
      | succ k =>
        simp only [List.getElem_cons_succ, List.getElem?_cons_succ]
        exact ih hv' k (by simpa using hk)

/-- C16: for an id array whose first `max_n` entries are valid table indices,
`slay_info_collect` completes and returns the number of non-zero entries among
them, which is at most `max_n`; for each `k` below that count, entry `k` of
every output array that is not null holds the description, brand text and
multiplier of the table row named by the `k`-th non-zero id, in input order;
the arrays are left alone from position `count` on, and a null array stays
null. -/
theorem slay_info_collect_spec (slay_table : List slay) (slays : Nat → Nat)
    (desc brand : Option (Nat → String)) (mult : Option (Nat → Int)) (max_n : Nat)
    (hv : ∀ i, i < max_n → slays i < slay_table.length) :
    ∃ r, slay_info_collect slay_table slays desc brand mult max_n = some r ∧
      r.count = (((List.range max_n).map slays).filter (fun id => id != 0)).length ∧
      r.count ≤ max_n ∧
      (∀ (k : Nat) (hk : k < (((List.range max_n).map slays).filter
          (fun id => id != 0)).length),
        ∃ s, slay_table[(((List.range max_n).map slays).filter (fun id => id != 0))[k]]? =
            some s ∧
          (∀ a, desc = some a → ∃ a1, r.desc = some a1 ∧ a1 k = s.desc) ∧
          (∀ a, brand = some a → ∃ a1, r.brand = some a1 ∧ a1 k = s.brand) ∧
          (∀ a, mult = some a → ∃ a1, r.mult = some a1 ∧ a1 k = s.mult)) ∧
      (∀ a, desc = some a → ∃ a1, r.desc = some a1 ∧ ∀ k, r.count ≤ k → a1 k = a k) ∧
      (∀ a, brand = some a → ∃ a1, r.brand = some a1 ∧ ∀ k, r.count ≤ k → a1 k = a k) ∧
      (∀ a, mult = some a → ∃ a1, r.mult = some a1 ∧ ∀ k, r.count ≤ k → a1 k = a k) ∧
      (desc = none → r.desc = none) ∧ (brand = none → r.brand = none) ∧
      (mult = none → r.mult = none) := by
  have hv' : ∀ id ∈ (List.range max_n).map slays, id < slay_table.length := by
    intro id hid
    obtain ⟨i, hi, rfl⟩ := List.mem_map.1 hid
    exact hv i (List.mem_range.1 hi)
  have hloop := slay_info_loop_eq slay_table ((List.range max_n).map slays)
    { desc := desc, brand := brand, mult := mult, count := 0 } hv'
  have hlen := rows_named_length slay_table ((List.range max_n).map slays) hv'
  simp only [Nat.zero_add] at hloop
  refine ⟨_, hloop, hlen, ?_, ?_, ?_, ?_, ?_, ?_, ?_, ?_⟩
  · simp only
    rw [hlen]
    calc (((List.range max_n).map slays).filter (fun id => id != 0)).length
        ≤ ((List.range max_n).map slays).length := List.length_filter_le _ _
      _ = max_n := by simp
  · intro k hk
    have hk' : k < (rows_named slay_table ((List.range max_n).map slays)).length := by
      rw [hlen]; exact hk
    have hget := rows_named_get slay_table ((List.range max_n).map slays) hv' k hk
    rw [List.getElem?_eq_getElem hk'] at hget
    refine ⟨_, hget, ?_, ?_, ?_⟩
    · rintro a rfl
      refine ⟨_, rfl, ?_⟩
      have := write_from_at a 0
        ((rows_named slay_table ((List.range max_n).map slays)).map (fun s => s.desc)) k
        (by simpa using hk')
      rw [Nat.zero_add] at this
      exact this.trans (by simp)
    · rintro a rfl
      refine ⟨_, rfl, ?_⟩
      have := write_from_at a 0
        ((rows_named slay_table ((List.range max_n).map slays)).map (fun s => s.brand)) k
        (by simpa using hk')
      rw [Nat.zero_add] at this
      exact this.trans (by simp)
    · rintro a rfl
      refine ⟨_, rfl, ?_⟩
      have := write_from_at a 0
        ((rows_named slay_table ((List.range max_n).map slays)).map (fun s => s.mult)) k
        (by simpa using hk')
      rw [Nat.zero_add] at this
      exact this.trans (by simp)
  · rintro a rfl
    exact ⟨_, rfl, fun k hk => write_from_beyond a 0 _ k (by simpa using hk)⟩
  · rintro a rfl
    exact ⟨_, rfl, fun k hk => write_from_beyond a 0 _ k (by simpa using hk)⟩
  · rintro a rfl
    exact ⟨_, rfl, fun k hk => write_from_beyond a 0 _ k (by simpa using hk)⟩
  · rintro rfl; rfl
  · rintro rfl; rfl
  · rintro rfl; rfl

/-- C16, at the orc table with the ids 2, 0, 1, a null `brand` array and the
other two arrays present. -/
theorem slay_info_collect_spec_witness :
    (∀ i, i < 3 → sample_ids i < orc_table.length) ∧
    ∃ r, slay_info_collect orc_table sample_ids (some blank_texts) none
        (some zero_mults) 3 = some r ∧
      r.count = (((List.range 3).map sample_ids).filter (fun id => id != 0)).length ∧
      r.count ≤ 3 ∧
      (∀ (k : Nat) (hk : k < (((List.range 3).map sample_ids).filter
          (fun id => id != 0)).length),
        ∃ s, orc_table[(((List.range 3).map sample_ids).filter (fun id => id != 0))[k]]? =
            some s ∧
          (∀ a, some blank_texts = some a → ∃ a1, r.desc = some a1 ∧ a1 k = s.desc) ∧
          (∀ a, (none : Option (Nat → String)) = some a →
            ∃ a1, r.brand = some a1 ∧ a1 k = s.brand) ∧
          (∀ a, some zero_mults = some a → ∃ a1, r.mult = some a1 ∧ a1 k = s.mult)) ∧
      (∀ a, some blank_texts = some a →
        ∃ a1, r.desc = some a1 ∧ ∀ k, r.count ≤ k → a1 k = a k) ∧
      (∀ a, (none : Option (Nat → String)) = some a →
        ∃ a1, r.brand = some a1 ∧ ∀ k, r.count ≤ k → a1 k = a k) ∧
      (∀ a, some zero_mults = some a →
        ∃ a1, r.mult = some a1 ∧ ∀ k, r.count ≤ k → a1 k = a k) ∧
      (some blank_texts = none → r.desc = none) ∧
      ((none : Option (Nat → String)) = none → r.brand = none) ∧
      (some zero_mults = none → r.mult = none) :=
  ⟨fun i hi => by interval_cases i <;> decide,
    slay_info_collect_spec orc_table sample_ids (some blank_texts) none
      (some zero_mults) 3 (fun i hi => by interval_cases i <;> decide)⟩

/-! ## Counting what `dedup_slays` clears -/

theorem slay_pair_eq_iff (s t : slay) :
    slay_pair s = slay_pair t ↔
      s.monster_flag = t.monster_flag ∧ s.resist_flag = t.resist_flag := by
  simp [slay_pair]

/-- Among the rows of a list that carry a given pair, one has the greatest
multiplier. -/
theorem exists_strongest (l : List slay) (p : slay_key) (h : ∃ s ∈ l, slay_pair s = p) :
    ∃ m ∈ l, slay_pair m = p ∧ ∀ y ∈ l, slay_pair y = p → y.mult ≤ m.mult := by
  induction l with
  | nil =>
    obtain ⟨s, hs, _⟩ := h
    cases hs
  | cons x xs ih =>
    by_cases hxs : ∃ s ∈ xs, slay_pair s = p
    · obtain ⟨m, hm, hmp, hmax⟩ := ih hxs
      by_cases hx : slay_pair x = p ∧ m.mult < x.mult
      · refine ⟨x, List.mem_cons_self _ _, hx.1, ?_⟩
        intro y hy hyp
        rcases List.mem_cons.1 hy with e | hy
        · rw [e]
        · have := hmax y hy hyp
          omega
      · refine ⟨m, List.mem_cons_of_mem _ hm, hmp, ?_⟩
        intro y hy hyp
        rcases List.mem_cons.1 hy with e | hy
        · rw [e] at hyp ⊢
          by_contra hlt
          exact hx ⟨hyp, by omega⟩
        · exact hmax y hy hyp
    · obtain ⟨s, hs, hsp⟩ := h
      rcases List.mem_cons.1 hs with e | hs
      · rw [e] at hsp
        refine ⟨x, List.mem_cons_self _ _, hsp, ?_⟩
        intro y hy hyp
        rcases List.mem_cons.1 hy with e' | hy
        · rw [e']
        · exact absurd ⟨y, hy, hyp⟩ hxs
      · exact absurd ⟨s, hs, hsp⟩ hxs

/-- The sum of `k - 1` over the values that occur `k > 1` times in a list is
the length of the list less the number of its distinct values. -/
theorem excess_add_distinct (qs : List slay_key) (c : slay_key → Nat)
    (h : ∀ q ∈ qs, 1 ≤ c q) :
    ((qs.filter (fun q => 1 < c q)).map (fun q => c q - 1)).sum + qs.length =
      (qs.map c).sum := by
  induction qs with
  | nil => rfl
  | cons q qs ih =>
    have h1 := h q (List.mem_cons_self _ _)
    have ih' := ih (fun x hx => h x (List.mem_cons_of_mem _ hx))
    by_cases hq : 1 < c q
    · simp only [List.filter_cons, hq, decide_True, if_true, List.map_cons, List.sum_cons,
        List.length_cons]
      omega
    · simp only [List.filter_cons, hq, decide_False, Bool.false_eq_true, if_false,
        List.map_cons, List.sum_cons, List.length_cons]
      omega

theorem duplicate_excess_add (slay_table : List slay) (flags : bitflag) :
    duplicate_excess slay_table flags +
      ((present_slays slay_table flags).map slay_pair).dedup.length =
      (present_slays slay_table flags).length := by
  unfold duplicate_excess
  simp only
  rw [excess_add_distinct _ _ (fun q hq =>
    List.count_pos_iff.2 (List.mem_dedup.1 hq)), List.sum_map_count_dedup_eq_length,
    List.length_map]

/-- What is cleared and what is left add up to what was present. -/
theorem cleared_add_left (slay_table : List slay) (before after : bitflag)
    (hsub : ∀ k, flag_has after k = true → flag_has before k = true) :
    cleared_count slay_table before after + (present_slays slay_table after).length =
      (present_slays slay_table before).length := by
  unfold cleared_count present_slays
  rw [List.length_eq_length_filter_add (l := List.filter (fun s => flag_has before s.object_flag)
    slay_table) (fun s => flag_has after s.object_flag)]
  rw [List.filter_filter, List.filter_filter]
  have e1 : List.filter (fun s => flag_has after s.object_flag &&
      flag_has before s.object_flag) slay_table =
      List.filter (fun s => flag_has after s.object_flag) slay_table := by
    apply List.filter_congr
    intro s _
    cases ha : flag_has after s.object_flag with
    | false => rfl
    | true => simp [hsub _ ha]
  have e2 : List.filter (fun s => (!flag_has after s.object_flag) &&
      flag_has before s.object_flag) slay_table =
      List.filter (fun s => flag_has before s.object_flag &&
        !flag_has after s.object_flag) slay_table := by
    apply List.filter_congr
    intro s _
    exact Bool.and_comm _ _
  rw [e1, e2]
  omega

/-- In a table with pairwise distinct non-null object flags and no two present
rows of one pair with the same multiplier, the rows left after `dedup_slays`
carry pairwise different pairs. -/
theorem dedup_slays_left_pairs_differ (slay_table : List slay) (flags : bitflag)
    (hd : slay_table.Pairwise
      (fun a b => a.object_flag = b.object_flag → a.object_flag = 0))
    (hn : slay_table.Pairwise
      (fun a b => flag_has flags a.object_flag = true → flag_has flags b.object_flag = true →
        slay_pair a = slay_pair b → a.mult ≠ b.mult)) :
    (present_slays slay_table (dedup_slays slay_table flags).1).Pairwise
      (fun a b => slay_pair a ≠ slay_pair b) := by
  have hchar := dedup_outer_char slay_table (flags, 0) hd
  have hQ : slay_table.Pairwise (fun a b =>
      flag_has (dedup_slays slay_table flags).1 a.object_flag = true →
      flag_has (dedup_slays slay_table flags).1 b.object_flag = true →
      slay_pair a ≠ slay_pair b) := by
    refine List.Pairwise.imp_of_mem ?_ hn
    intro a b ha hb hab hRa hRb hp
    unfold dedup_slays at hRa hRb
    obtain ⟨hFa, hmaxa⟩ := (hchar a.object_flag).1 hRa
    obtain ⟨hFb, hmaxb⟩ := (hchar b.object_flag).1 hRb
    have hne := hab hFa hFb hp
    obtain ⟨hp1, hp2⟩ := (slay_pair_eq_iff a b).1 hp
    rcases lt_or_gt_of_ne hne with hlt | hgt
    · exact hmaxa ⟨a, ha, rfl, b, hb, hFb, hp1.symm, hp2.symm, hlt⟩
    · exact hmaxb ⟨b, hb, rfl, a, ha, hFa, hp1, hp2, hgt⟩
  have hS := hQ.sublist (List.filter_sublist (l := slay_table)
    (p := fun s => flag_has (dedup_slays slay_table flags).1 s.object_flag))
  unfold present_slays
  refine List.Pairwise.imp_of_mem ?_ hS
  intro a b ha hb h
  exact h (List.mem_filter.1 ha).2 (List.mem_filter.1 hb).2

/-- Every pair present before `dedup_slays` is still present after it. -/
theorem dedup_slays_left_pairs (slay_table : List slay) (flags : bitflag)
    (hd : slay_table.Pairwise
      (fun a b => a.object_flag = b.object_flag → a.object_flag = 0))
    (p : slay_key) :
    p ∈ (present_slays slay_table (dedup_slays slay_table flags).1).map slay_pair ↔
      p ∈ (present_slays slay_table flags).map slay_pair := by
  have hchar := dedup_outer_char slay_table (flags, 0) hd
  unfold present_slays
  constructor
  · intro h
    obtain ⟨s, hs, hsp⟩ := List.mem_map.1 h
    obtain ⟨hst, hRs⟩ := List.mem_filter.1 hs
    exact List.mem_map.2 ⟨s, List.mem_filter.2 ⟨hst,
      dedup_outer_subset slay_table (flags, 0) _ hRs⟩, hsp⟩
  · intro h
    obtain ⟨s, hs, hsp⟩ := List.mem_map.1 h
    obtain ⟨m, hm, hmp, hmax⟩ := exists_strongest _ p ⟨s, hs, hsp⟩
    obtain ⟨hmt, hFm⟩ := List.mem_filter.1 hm
    refine List.mem_map.2 ⟨m, List.mem_filter.2 ⟨hmt, ?_⟩, hmp⟩
    unfold dedup_slays
    rw [hchar]
    refine ⟨hFm, ?_⟩
    rintro ⟨s', hs', hf, t, ht, hFt, hq1, hq2, hgt⟩
    have es : s' = m := eq_of_object_flag_eq hd hs' hmt hf (hf ▸ flag_ne_zero_of_has hFm)
    rw [es] at hq1 hq2 hgt
    have htp : slay_pair t = p := by
      rw [← hmp]
      exact (slay_pair_eq_iff t m).2 ⟨hq1, hq2⟩
    have := hmax t (List.mem_filter.2 ⟨ht, hFt⟩) htp
    omega

/-! ## Claims on the number of duplicates -/

/-- C11, refuted at the tie table with both bits set: two different rows of the
one pair are both still present after `dedup_slays`, and no bit was cleared
although the pair occurs twice (so the sum of `k - 1` is 1). -/
theorem dedup_slays_keeps_ties :
    (∃ s ∈ present_slays tie_table (dedup_slays tie_table 3).1,
      ∃ t ∈ present_slays tie_table (dedup_slays tie_table 3).1,
        s ≠ t ∧ slay_pair s = slay_pair t) ∧
    cleared_count tie_table 3 (dedup_slays tie_table 3).1 = 0 ∧
    duplicate_excess tie_table 3 = 1 := by
  decide

/-- C11 as amended: over a table with pairwise distinct non-null object flags,
for a flag set in which no two present rows of one pair have the same
multiplier, after `dedup_slays` at most one present row remains for each
`(monster_flag, resist_flag)` pair, and the number of bits cleared is the sum,
over the pairs that occur `k > 1` times among the rows present before, of
`k - 1`. -/
theorem dedup_slays_one_per_pair (slay_table : List slay) (flags : bitflag)
    (hd : slay_table.Pairwise
      (fun a b => a.object_flag = b.object_flag → a.object_flag = 0))
    (hn : slay_table.Pairwise
      (fun a b => flag_has flags a.object_flag = true → flag_has flags b.object_flag = true →
        slay_pair a = slay_pair b → a.mult ≠ b.mult)) :
    ((present_slays slay_table (dedup_slays slay_table flags).1).map slay_pair).Nodup ∧
    cleared_count slay_table flags (dedup_slays slay_table flags).1 =
      duplicate_excess slay_table flags := by
  have hnd : ((present_slays slay_table (dedup_slays slay_table flags).1).map
      slay_pair).Nodup := by
    unfold List.Nodup
    rw [List.pairwise_map]
    exact dedup_slays_left_pairs_differ slay_table flags hd hn
  refine ⟨hnd, ?_⟩
  have hperm : ((present_slays slay_table (dedup_slays slay_table flags).1).map slay_pair).Perm
      ((present_slays slay_table flags).map slay_pair).dedup :=
    (List.perm_ext_iff_of_nodup hnd (List.nodup_dedup _)).2 (fun p => by
      rw [List.mem_dedup]
      exact dedup_slays_left_pairs slay_table flags hd p)
  have hlen := hperm.length_eq
  rw [List.length_map] at hlen
  have h1 := cleared_add_left slay_table flags (dedup_slays slay_table flags).1
    (fun k hk => dedup_outer_subset slay_table (flags, 0) k hk)
  have h2 := duplicate_excess_add slay_table flags
  omega

/-- C11 as amended, at the orc table with both orc bits set. -/
theorem dedup_slays_one_per_pair_witness :
    orc_table.Pairwise (fun a b => a.object_flag = b.object_flag → a.object_flag = 0) ∧
    orc_table.Pairwise
      (fun a b => flag_has 3 a.object_flag = true → flag_has 3 b.object_flag = true →
        slay_pair a = slay_pair b → a.mult ≠ b.mult) ∧
    ((present_slays orc_table (dedup_slays orc_table 3).1).map slay_pair).Nodup ∧
    cleared_count orc_table 3 (dedup_slays orc_table 3).1 = duplicate_excess orc_table 3 :=
  ⟨by decide, by decide, dedup_slays_one_per_pair orc_table 3 (by decide) (by decide)⟩

end ObjSlays
